import Mathlib

/-!
# Verification of the sqla_eav entity-attribute-value data access layer

This file shallowly embeds the data model and operations of the sqla_eav
repository (src/sqla_eav/dao.py and src/sqla_eav/schema.py) and proves or
refutes the frozen specification claims about it.

Modelling conventions:
* Python values stored as attributes are embedded as the inductive type
  PyVal.  Python numbers are embedded as integers (the int case); floating
  point values are outside the shallow embedding.
* The stdlib json codec (json.dumps / json.loads), which dao.py consumes as
  a black box, is embedded as an executable JSON encoder and parser over
  PyVal.  The encoder follows json.dumps formatting (", " and ": "
  separators, minimal escaping equivalent for round-tripping).
* The relational store is embedded as explicit lists of rows; SQLAlchemy
  statements are embedded by their effect on this state.  Transactions are
  embedded as rollback-to-snapshot on error.
* Millisecond timestamps produced by schema._int_time are passed to each
  operation as an explicit parameter t : Nat.
-/

namespace SqlaEav

mutual

/-- Embedding of the Python values handled by dao.serialize_value: strings,
integers (numbers), booleans, None, lists and string-keyed dicts.  The
mutual presentation (separate list and dict spines) gives clean mutual
recursion and induction. -/
inductive PyVal : Type where
| str (s : String) : PyVal
| int (n : Int) : PyVal
| bool (b : Bool) : PyVal
| null : PyVal
| list (xs : PyList) : PyVal
| dict (xs : PyDict) : PyVal

inductive PyList : Type where
| nil : PyList
| cons (hd : PyVal) (tl : PyList) : PyList

inductive PyDict : Type where
| nil : PyDict
| cons (k : String) (v : PyVal) (tl : PyDict) : PyDict

end

/-- Python type(value).__name__ for the embedded values. -/
def pyTypeName : PyVal → String
| PyVal.str _ => "str"
| PyVal.int _ => "int"
| PyVal.bool _ => "bool"
| PyVal.null => "NoneType"
| PyVal.list _ => "list"
| PyVal.dict _ => "dict"

/-! ## JSON encoder (embedding of json.dumps) -/

/-- Decimal digits of a natural number (most significant first). -/
def natChars (n : Nat) : List Char :=
  if h : n < 10 then [Char.ofNat (48 + n)]
  else natChars (n / 10) ++ [Char.ofNat (48 + n % 10)]
decreasing_by exact Nat.div_lt_self (by omega) (by omega)

/-- Decimal rendering of an integer, as json.dumps renders Python ints. -/
def intChars (n : Int) : List Char :=
  if n < 0 then '-' :: natChars n.natAbs else natChars n.natAbs

/-- Lowercase hexadecimal digit character for a nibble. -/
def hexDigit (n : Nat) : Char :=
  if n < 10 then Char.ofNat (48 + n) else Char.ofNat (87 + n)

/-- Escaping of one character inside a JSON string literal, mirroring the
escape table of the json encoder: backslash, quote, the short control
escapes, and a lowercase \u00xx escape for the other control characters.
Characters at or above 0x20 are emitted verbatim. -/
def encChar (c : Char) : List Char :=
  if c = '"' then ['\\', '"']
  else if c = '\\' then ['\\', '\\']
  else if c = '\n' then ['\\', 'n']
  else if c = '\t' then ['\\', 't']
  else if c = '\r' then ['\\', 'r']
  else if c = Char.ofNat 8 then ['\\', 'b']
  else if c = Char.ofNat 12 then ['\\', 'f']
  else if c.toNat < 32 then
    ['\\', 'u', '0', '0', hexDigit (c.toNat / 16), hexDigit (c.toNat % 16)]
  else [c]

/-- JSON string literal for a Lean string: quote, escaped body, quote. -/
def encStr (s : String) : List Char :=
  '"' :: (s.toList.flatMap encChar) ++ ['"']

mutual

/-- Embedding of json.dumps restricted to the supported kinds: renders a
PyVal to the character stream json.dumps would produce (default
separators, so ", " between items and ": " after keys). -/
def dumpVal : PyVal → List Char
| PyVal.str s => encStr s
| PyVal.int n => intChars n
| PyVal.bool true => ['t', 'r', 'u', 'e']
| PyVal.bool false => ['f', 'a', 'l', 's', 'e']
| PyVal.null => ['n', 'u', 'l', 'l']
| PyVal.list PyList.nil => ['[', ']']
| PyVal.list (PyList.cons v tl) => '[' :: dumpVal v ++ dumpListTail tl ++ [']']
| PyVal.dict PyDict.nil => ['\x7b', '\x7d']
| PyVal.dict (PyDict.cons k v tl) =>
    '\x7b' :: (encStr k ++ ':' :: ' ' :: dumpVal v ++ dumpDictTail tl) ++ ['\x7d']

/-- Remaining list items, each preceded by ", ". -/
def dumpListTail : PyList → List Char
| PyList.nil => []
| PyList.cons v tl => ',' :: ' ' :: dumpVal v ++ dumpListTail tl

/-- Remaining dict items, each preceded by ", ". -/
def dumpDictTail : PyDict → List Char
| PyDict.nil => []
| PyDict.cons k v tl => ',' :: ' ' :: (encStr k ++ ':' :: ' ' :: dumpVal v) ++ dumpDictTail tl

end

/-! ## JSON parser (embedding of json.loads) -/

/-- Hexadecimal digit value (accepting both cases, as json.loads does). -/
def hexVal (c : Char) : Option Nat :=
  if 48 ≤ c.toNat ∧ c.toNat ≤ 57 then some (c.toNat - 48)
  else if 97 ≤ c.toNat ∧ c.toNat ≤ 102 then some (c.toNat - 87)
  else if 65 ≤ c.toNat ∧ c.toNat ≤ 70 then some (c.toNat - 55)
  else Option.none

/-- Unescape table for the single-character JSON escapes. -/
def decEsc (c : Char) : Option Char :=
  if c = '"' then some '"'
  else if c = '\\' then some '\\'
  else if c = '/' then some '/'
  else if c = 'n' then some '\n'
  else if c = 't' then some '\t'
  else if c = 'r' then some '\r'
  else if c = 'b' then some (Char.ofNat 8)
  else if c = 'f' then some (Char.ofNat 12)
  else Option.none

/-- Parse the body of a JSON string literal up to and including the closing
quote; returns the decoded characters and the remaining input.  Raw
control characters are rejected (strict mode of json.loads). -/
def parseStrBody : List Char → Option (List Char × List Char)
| [] => Option.none
| c :: rest =>
  if c = '"' then some ([], rest)
  else if c = '\\' then
    match rest with
    | [] => Option.none
    | e :: rest2 =>
      if e = 'u' then
        match rest2 with
        | a :: b :: c3 :: d :: rest3 =>
          match hexVal a, hexVal b, hexVal c3, hexVal d with
          | some va, some vb, some vc, some vd =>
            let code := va * 4096 + vb * 256 + vc * 16 + vd
            if code.isValidChar then
              (parseStrBody rest3).map (fun p => (Char.ofNat code :: p.1, p.2))
            else Option.none
          | _, _, _, _ => Option.none
        | _ => Option.none
      else
        match decEsc e with
        | some c2 => (parseStrBody rest2).map (fun p => (c2 :: p.1, p.2))
        | Option.none => Option.none
  else if c.toNat < 32 then Option.none
  else (parseStrBody rest).map (fun p => (c :: p.1, p.2))

/-- Is a decimal digit character. -/
def isDigitC (c : Char) : Bool := 48 ≤ c.toNat && c.toNat ≤ 57

/-- Numeric value of a digit character. -/
def digitVal (c : Char) : Nat := c.toNat - 48

/-- Consume a run of decimal digits, accumulating their value. -/
def parseNatAux : List Char → Nat → Nat × List Char
| [], acc => (acc, [])
| c :: rest, acc =>
  if isDigitC c then parseNatAux rest (acc * 10 + digitVal c) else (acc, c :: rest)

/-- Parse a JSON integer (optional minus sign and digits). -/
def parseInt : List Char → Option (Int × List Char)
| [] => Option.none
| c :: rest =>
  if c = '-' then
    match rest with
    | [] => Option.none
    | c2 :: rest2 =>
      if isDigitC c2 then
        let p := parseNatAux rest2 (digitVal c2)
        some (-(p.1 : Int), p.2)
      else Option.none
  else if isDigitC c then
    let p := parseNatAux rest (digitVal c)
    some ((p.1 : Int), p.2)
  else Option.none

/-- Skip JSON whitespace. -/
def skipWs : List Char → List Char
| [] => []
| c :: rest =>
  if c = ' ' ∨ c = '\t' ∨ c = '\n' ∨ c = '\r' then skipWs rest else c :: rest

mutual

/-- Fueled recursive-descent JSON value parser (embedding of json.loads);
the fuel only bounds nesting-plus-item recursion and any fuel at least the
size of the encoded value suffices. -/
def parseVal : Nat → List Char → Option (PyVal × List Char)
| 0, _ => Option.none
| Nat.succ fuel, cs =>
  match skipWs cs with
  | [] => Option.none
  | c :: rest =>
    if c = '"' then (parseStrBody rest).map (fun p => (PyVal.str (String.mk p.1), p.2))
    else if c = '[' then
      match skipWs rest with
      | [] => Option.none
      | c2 :: rest2 =>
        if c2 = ']' then some (PyVal.list PyList.nil, rest2)
        else (parseListRest fuel (c2 :: rest2)).map (fun p => (PyVal.list p.1, p.2))
    else if c = '\x7b' then
      match skipWs rest with
      | [] => Option.none
      | c2 :: rest2 =>
        if c2 = '\x7d' then some (PyVal.dict PyDict.nil, rest2)
        else (parseDictRest fuel (c2 :: rest2)).map (fun p => (PyVal.dict p.1, p.2))
    else if c = 't' then
      match rest with
      | 'r' :: 'u' :: 'e' :: rest2 => some (PyVal.bool true, rest2)
      | _ => Option.none
    else if c = 'f' then
      match rest with
      | 'a' :: 'l' :: 's' :: 'e' :: rest2 => some (PyVal.bool false, rest2)
      | _ => Option.none
    else if c = 'n' then
      match rest with
      | 'u' :: 'l' :: 'l' :: rest2 => some (PyVal.null, rest2)
      | _ => Option.none
    else (parseInt (c :: rest)).map (fun p => (PyVal.int p.1, p.2))

/-- Parse one or more list items followed by the closing bracket. -/
def parseListRest : Nat → List Char → Option (PyList × List Char)
| 0, _ => Option.none
| Nat.succ fuel, cs =>
  match parseVal fuel cs with
  | Option.none => Option.none
  | some (v, cs2) =>
    match skipWs cs2 with
    | [] => Option.none
    | c :: cs3 =>
      if c = ',' then (parseListRest fuel cs3).map (fun p => (PyList.cons v p.1, p.2))
      else if c = ']' then some (PyList.cons v PyList.nil, cs3)
      else Option.none

/-- Parse one or more dict entries followed by the closing brace. -/
def parseDictRest : Nat → List Char → Option (PyDict × List Char)
| 0, _ => Option.none
| Nat.succ fuel, cs =>
  match skipWs cs with
  | [] => Option.none
  | c0 :: cs1 =>
    if c0 = '"' then
      match parseStrBody cs1 with
      | Option.none => Option.none
      | some (k, cs2) =>
        match skipWs cs2 with
        | [] => Option.none
        | c :: cs3 =>
          if c = ':' then
            match parseVal fuel cs3 with
            | Option.none => Option.none
            | some (v, cs4) =>
              match skipWs cs4 with
              | [] => Option.none
              | c4 :: cs5 =>
                if c4 = ',' then
                  (parseDictRest fuel cs5).map (fun p => (PyDict.cons (String.mk k) v p.1, p.2))
                else if c4 = '\x7d' then some (PyDict.cons (String.mk k) v PyDict.nil, cs5)
                else Option.none
          else Option.none
    else Option.none

end

mutual

/-- Recursion/fuel budget needed to parse a value. -/
def pySize : PyVal → Nat
| PyVal.str _ => 1
| PyVal.int _ => 1
| PyVal.bool _ => 1
| PyVal.null => 1
| PyVal.list xs => 1 + pyListSize xs
| PyVal.dict xs => 1 + pyDictSize xs

/-- Budget for the items of a list. -/
def pyListSize : PyList → Nat
| PyList.nil => 0
| PyList.cons v tl => 1 + pySize v + pyListSize tl

/-- Budget for the entries of a dict. -/
def pyDictSize : PyDict → Nat
| PyDict.nil => 0
| PyDict.cons _ v tl => 1 + pySize v + pyDictSize tl

end

/-- Embedding of json.dumps as a String-valued function. -/
def json_dumps (v : PyVal) : String := String.mk (dumpVal v)

/-- Embedding of json.loads: parse a complete JSON document, requiring the
whole input to be consumed. -/
def json_loads (s : String) : Option PyVal :=
  match parseVal (s.toList.length + 1) s.toList with
  | some (v, rest) => if skipWs rest = [] then some v else Option.none
  | Option.none => Option.none

/-! ## Round-trip lemmas for the JSON codec -/

/-- A continuation is safe after a parsed integer when it does not begin
with another digit. -/
def noDigitHead : List Char → Prop
| [] => True
| c :: _ => isDigitC c = false

theorem skipWs_cons_of {c : Char} (cs : List Char)
    (h : ¬(c = ' ' ∨ c = '\t' ∨ c = '\n' ∨ c = '\r')) : skipWs (c :: cs) = c :: cs := by
  simp [skipWs, h]

theorem skipWs_space (cs : List Char) : skipWs (' ' :: cs) = skipWs cs := by
  simp [skipWs]

theorem natChars_ne_nil (n : Nat) : natChars n ≠ [] := by
  rw [natChars]; split <;> simp

theorem digit_char_spec : ∀ m : Nat, m < 10 →
    isDigitC (Char.ofNat (48 + m)) = true ∧ digitVal (Char.ofNat (48 + m)) = m := by
  decide

theorem natChars_digits (n : Nat) : ∀ c ∈ natChars n, isDigitC c = true := by
  induction n using Nat.strongRecOn with
  | _ n ih =>
    rw [natChars]
    split
    · next h =>
      intro c hc
      simp only [List.mem_singleton] at hc
      subst hc
      exact (digit_char_spec n h).1
    · next h =>
      intro c hc
      rw [List.mem_append, List.mem_singleton] at hc
      rcases hc with hc | hc
      · exact ih (n / 10) (Nat.div_lt_self (by omega) (by omega)) c hc
      · subst hc
        exact (digit_char_spec (n % 10) (Nat.mod_lt _ (by omega))).1

theorem foldl_natChars (n : Nat) : ∀ acc : Nat,
    List.foldl (fun a c => a * 10 + digitVal c) acc (natChars n)
      = acc * 10 ^ (natChars n).length + n := by
  induction n using Nat.strongRecOn with
  | _ n ih =>
    intro acc
    rw [natChars]
    split
    · next h =>
      simp [List.foldl, (digit_char_spec n h).2]
    · next h =>
      rw [List.foldl_append, ih (n / 10) (Nat.div_lt_self (by omega) (by omega)),
        List.length_append]
      simp only [List.foldl, List.length_singleton, pow_succ,
        (digit_char_spec (n % 10) (Nat.mod_lt _ (by omega))).2]
      generalize (10 : Nat) ^ (natChars (n / 10)).length = k
      have hdm : n / 10 * 10 + n % 10 = n := by omega
      calc (acc * k + n / 10) * 10 + n % 10
          = acc * (k * 10) + (n / 10 * 10 + n % 10) := by ring
        _ = acc * (k * 10) + n := by rw [hdm]

theorem parseNatAux_digits (ds : List Char) : ∀ (rest : List Char) (acc : Nat),
    (∀ c ∈ ds, isDigitC c = true) → noDigitHead rest →
    parseNatAux (ds ++ rest) acc
      = (List.foldl (fun a c => a * 10 + digitVal c) acc ds, rest) := by
  induction ds with
  | nil =>
    intro rest acc _ hr
    cases rest with
    | nil => rfl
    | cons c cs =>
      simp only [noDigitHead] at hr
      simp [parseNatAux, hr]
  | cons c ds ih =>
    intro rest acc hd hr
    simp only [List.cons_append, parseNatAux, hd c (List.mem_cons_self c ds), if_pos,
      List.foldl]
    exact ih rest _ (fun c hc => hd c (List.mem_cons_of_mem _ hc)) hr

theorem parseInt_natChars (n : Nat) (rest : List Char) (hr : noDigitHead rest) :
    parseInt (natChars n ++ rest) = some ((n : Int), rest) := by
  obtain ⟨c, ds, hds⟩ := List.exists_cons_of_ne_nil (natChars_ne_nil n)
  have hdig : isDigitC c = true := natChars_digits n c (by rw [hds]; exact List.mem_cons_self c ds)
  have hne : c ≠ '-' := by
    intro h
    subst h
    exact absurd hdig (by decide)
  have hval : List.foldl (fun a c => a * 10 + digitVal c) (digitVal c) ds = n := by
    have := foldl_natChars n 0
    rw [hds] at this
    simpa [List.foldl] using this
  rw [hds, List.cons_append, parseInt.eq_def]
  simp only [if_neg hne, if_pos hdig]
  rw [parseNatAux_digits ds rest (digitVal c)
      (fun x hx => natChars_digits n x (by rw [hds]; exact List.mem_cons_of_mem _ hx)) hr]
  simp [hval]

theorem parseInt_intChars (n : Int) (rest : List Char) (hr : noDigitHead rest) :
    parseInt (intChars n ++ rest) = some (n, rest) := by
  rw [intChars]
  split
  · next hneg =>
    obtain ⟨c, ds, hds⟩ := List.exists_cons_of_ne_nil (natChars_ne_nil n.natAbs)
    have hdig : isDigitC c = true :=
      natChars_digits n.natAbs c (by rw [hds]; exact List.mem_cons_self c ds)
    have hval : List.foldl (fun a c => a * 10 + digitVal c) (digitVal c) ds = n.natAbs := by
      have := foldl_natChars n.natAbs 0
      rw [hds] at this
      simpa [List.foldl] using this
    rw [List.cons_append, parseInt.eq_def]
    simp only [if_pos rfl, hds, List.cons_append, if_pos hdig]
    rw [parseNatAux_digits ds rest (digitVal c)
        (fun x hx => natChars_digits n.natAbs x (by rw [hds]; exact List.mem_cons_of_mem _ hx))
        hr]
    simp [hval]
    rw [abs_of_neg hneg, neg_neg]
  · next hpos =>
    rw [parseInt_natChars n.natAbs rest hr]
    have : (n.natAbs : Int) = n := by omega
    rw [this]

theorem hexVal_hexDigit : ∀ m : Nat, m < 16 → hexVal (hexDigit m) = some m := by
  decide

theorem parseStrBody_enc (l : List Char) (rest : List Char) :
    parseStrBody (l.flatMap encChar ++ '"' :: rest) = some (l, rest) := by
  induction l with
  | nil =>
    rw [List.flatMap_nil, List.nil_append, parseStrBody.eq_def]
    simp
  | cons c l ih =>
    show parseStrBody ((encChar c ++ l.flatMap encChar) ++ '"' :: rest) = _
    by_cases h1 : c = '"'
    · subst h1
      rw [show encChar '"' = ['\\', '"'] from by decide]
      simp only [List.cons_append, List.nil_append, List.append_assoc]
      rw [parseStrBody.eq_def]
      simp [decEsc, ih]
    by_cases h2 : c = '\\'
    · subst h2
      rw [show encChar '\\' = ['\\', '\\'] from by decide]
      simp only [List.cons_append, List.nil_append, List.append_assoc]
      rw [parseStrBody.eq_def]
      simp [decEsc, ih]
    by_cases h3 : c = '\n'
    · subst h3
      rw [show encChar '\n' = ['\\', 'n'] from by decide]
      simp only [List.cons_append, List.nil_append, List.append_assoc]
      rw [parseStrBody.eq_def]
      simp [decEsc, ih]
    by_cases h4 : c = '\t'
    · subst h4
      rw [show encChar '\t' = ['\\', 't'] from by decide]
      simp only [List.cons_append, List.nil_append, List.append_assoc]
      rw [parseStrBody.eq_def]
      simp [decEsc, ih]
    by_cases h5 : c = '\r'
    · subst h5
      rw [show encChar '\r' = ['\\', 'r'] from by decide]
      simp only [List.cons_append, List.nil_append, List.append_assoc]
      rw [parseStrBody.eq_def]
      simp [decEsc, ih]
    by_cases h6 : c = Char.ofNat 8
    · subst h6
      rw [show encChar (Char.ofNat 8) = ['\\', 'b'] from by decide]
      simp only [List.cons_append, List.nil_append, List.append_assoc]
      rw [parseStrBody.eq_def]
      simp [decEsc, ih]
    by_cases h7 : c = Char.ofNat 12
    · subst h7
      rw [show encChar (Char.ofNat 12) = ['\\', 'f'] from by decide]
      simp only [List.cons_append, List.nil_append, List.append_assoc]
      rw [parseStrBody.eq_def]
      simp [decEsc, ih]
    by_cases h8 : c.toNat < 32
    · have he : encChar c
          = ['\\', 'u', '0', '0', hexDigit (c.toNat / 16), hexDigit (c.toNat % 16)] := by
        rw [encChar, if_neg h1, if_neg h2, if_neg h3, if_neg h4, if_neg h5, if_neg h6,
          if_neg h7, if_pos h8]
      have hhi : hexVal (hexDigit (c.toNat / 16)) = some (c.toNat / 16) :=
        hexVal_hexDigit _ (by omega)
      have hlo : hexVal (hexDigit (c.toNat % 16)) = some (c.toNat % 16) :=
        hexVal_hexDigit _ (by omega)
      have hcode : (0 * 4096 + 0 * 256 + c.toNat / 16 * 16 + c.toNat % 16) = c.toNat := by
        omega
      have hvalid : (0 * 4096 + 0 * 256 + c.toNat / 16 * 16 + c.toNat % 16).isValidChar := by
        rw [hcode]
        constructor
        omega
      rw [he]
      simp only [List.cons_append, List.nil_append, List.append_assoc]
      rw [parseStrBody.eq_def]
      simp only [if_neg (by decide : ¬('\\' : Char) = '"'), if_pos rfl,
        show hexVal '0' = some 0 from by decide, hhi, hlo]
      norm_num
      have hc2 : c.toNat / 16 * 16 + c.toNat % 16 = c.toNat := by omega
      refine ⟨by rw [hc2]; constructor; omega, ih, by rw [hc2, Char.ofNat_toNat]⟩
    · have he : encChar c = [c] := by
        rw [encChar, if_neg h1, if_neg h2, if_neg h3, if_neg h4, if_neg h5, if_neg h6,
          if_neg h7, if_neg h8]
      rw [he]
      simp only [List.cons_append, List.nil_append, List.append_assoc]
      rw [parseStrBody.eq_def]
      simp [h1, h2, h8, ih]

/-! ## The value codec of dao.py -/

/-- Embedding of Dao.serialize_value: the pair of the runtime type name and
the stored text; strings are stored verbatim, everything else is passed
through the json encoder.  Returned as (type tag, stored text). -/
def serialize_value (value : PyVal) : String × String :=
  let type_ := pyTypeName value
  match value with
  | PyVal.str s => (type_, s)
  | v => (type_, json_dumps v)

/-- Embedding of Dao.deserialize_value: when the type tag is truthy and not
the string type, parse the stored text with the json parser, otherwise
return the raw text (a parse failure, which json.loads reports by raising,
is embedded as Option.none). -/
def deserialize_value (raw_value : String) (type_ : String) : Option PyVal :=
  if type_ ≠ "" ∧ type_ ≠ "str" then json_loads raw_value
  else some (PyVal.str raw_value)


theorem string_mk_toList (s : String) : String.mk s.toList = s := by
  cases s
  rfl

theorem one_le_pySize (v : PyVal) : 1 ≤ pySize v := by
  cases v <;> simp [pySize]

/-- Heads that the encoder can emit for a value; none of them is
whitespace, a closing bracket, a closing brace or a comma. -/
def headOk (c : Char) : Prop :=
  c = '"' ∨ c = '[' ∨ c = '\x7b' ∨ c = 't' ∨ c = 'f' ∨ c = 'n' ∨ c = '-' ∨ isDigitC c = true

theorem intChars_head (n : Int) :
    ∃ c cs, intChars n = c :: cs ∧ (c = '-' ∨ isDigitC c = true) := by
  rw [intChars]
  split
  · exact ⟨'-', natChars n.natAbs, rfl, Or.inl rfl⟩
  · obtain ⟨c, ds, hds⟩ := List.exists_cons_of_ne_nil (natChars_ne_nil n.natAbs)
    exact ⟨c, ds, hds,
      Or.inr (natChars_digits _ c (by rw [hds]; exact List.mem_cons_self c ds))⟩

theorem dumpVal_head (v : PyVal) : ∃ c cs, dumpVal v = c :: cs ∧ headOk c := by
  cases v with
  | str s => exact ⟨'"', _, rfl, Or.inl rfl⟩
  | int n =>
    obtain ⟨c, cs, h, hc⟩ := intChars_head n
    refine ⟨c, cs, h, ?_⟩
    rcases hc with h' | h'
    · exact Or.inr (Or.inr (Or.inr (Or.inr (Or.inr (Or.inr (Or.inl h'))))))
    · exact Or.inr (Or.inr (Or.inr (Or.inr (Or.inr (Or.inr (Or.inr h'))))))
  | bool b =>
    cases b
    · exact ⟨'f', _, rfl, by unfold headOk; decide⟩
    · exact ⟨'t', _, rfl, by unfold headOk; decide⟩
  | null => exact ⟨'n', _, rfl, by unfold headOk; decide⟩
  | list xs =>
    cases xs
    · exact ⟨'[', _, rfl, by unfold headOk; decide⟩
    · exact ⟨'[', _, rfl, by unfold headOk; decide⟩
  | dict xs =>
    cases xs
    · exact ⟨'\x7b', _, rfl, by unfold headOk; decide⟩
    · exact ⟨'\x7b', _, rfl, by unfold headOk; decide⟩

theorem headOk_not_ws {c : Char} (h : headOk c) :
    ¬(c = ' ' ∨ c = '\t' ∨ c = '\n' ∨ c = '\r') := by
  intro hw
  rcases h with h | h | h | h | h | h | h | h
  all_goals first
  | (subst h; rcases hw with h' | h' | h' | h' <;> exact absurd h' (by decide))
  | (rcases hw with h' | h' | h' | h' <;> (subst h'; exact absurd h (by decide)))

theorem headOk_ne_rb {c : Char} (h : headOk c) : ¬c = ']' := by
  intro h'
  subst h'
  rcases h with h | h | h | h | h | h | h | h <;> exact absurd h (by decide)

theorem headOk_ne_cb {c : Char} (h : headOk c) : ¬c = '\x7d' := by
  intro h'
  subst h'
  rcases h with h | h | h | h | h | h | h | h <;> exact absurd h (by decide)

theorem digit_head_facts {c : Char} (h : isDigitC c = true) :
    ¬c = '"' ∧ ¬c = '[' ∧ ¬c = '\x7b' ∧ ¬c = 't' ∧ ¬c = 'f' ∧ ¬c = 'n' ∧
      ¬(c = ' ' ∨ c = '\t' ∨ c = '\n' ∨ c = '\r') := by
  refine ⟨?_, ?_, ?_, ?_, ?_, ?_, ?_⟩
  all_goals first
  | (intro h'; subst h'; exact absurd h (by decide))
  | (intro h'; rcases h' with h' | h' | h' | h' <;> (subst h'; exact absurd h (by decide)))

theorem parseVal_space (fuel : Nat) (X : List Char) :
    parseVal fuel (' ' :: X) = parseVal fuel X := by
  cases fuel with
  | zero => rfl
  | succ f => rfl

theorem parseListRest_space (fuel : Nat) (X : List Char) :
    parseListRest fuel (' ' :: X) = parseListRest fuel X := by
  cases fuel with
  | zero => rfl
  | succ f =>
    rw [parseListRest.eq_def]
    conv_rhs => rw [parseListRest.eq_def]
    simp [parseVal_space]

theorem parseDictRest_space (fuel : Nat) (X : List Char) :
    parseDictRest fuel (' ' :: X) = parseDictRest fuel X := by
  cases fuel with
  | zero => rfl
  | succ f => rfl

theorem noDigitHead_listTail (tl : PyList) (rest : List Char) :
    noDigitHead (dumpListTail tl ++ ']' :: rest) := by
  cases tl with
  | nil => simp only [dumpListTail, List.nil_append, noDigitHead]; decide
  | cons v tl => simp only [dumpListTail, List.cons_append, noDigitHead]; decide

theorem noDigitHead_dictTail (tl : PyDict) (rest : List Char) :
    noDigitHead (dumpDictTail tl ++ '\x7d' :: rest) := by
  cases tl with
  | nil => simp only [dumpDictTail, List.nil_append, noDigitHead]; decide
  | cons k v tl => simp only [dumpDictTail, List.cons_append, noDigitHead]; decide


mutual

theorem parseVal_dump : ∀ (fuel : Nat) (v : PyVal) (rest : List Char),
    pySize v ≤ fuel → noDigitHead rest →
    parseVal fuel (dumpVal v ++ rest) = some (v, rest)
| 0, v, _, hf, _ => absurd hf (by have := one_le_pySize v; omega)
| Nat.succ fuel, v, rest, hf, hr => by
  cases v with
  | str s =>
    have hsh : dumpVal (PyVal.str s) ++ rest
        = '"' :: (s.toList.flatMap encChar ++ '"' :: rest) := by
      simp [dumpVal, encStr]
    rw [hsh]
    simp only [parseVal]
    rw [skipWs_cons_of _ (by decide)]
    simp [parseStrBody_enc, string_mk_toList]
  | int n =>
    obtain ⟨c, cs, hic, hc⟩ := intChars_head n
    have hsh : dumpVal (PyVal.int n) ++ rest = c :: (cs ++ rest) := by
      simp [dumpVal, hic]
    have hin : c :: (cs ++ rest) = intChars n ++ rest := by
      rw [hic]
      rfl
    rcases hc with hneg | hdig
    · subst hneg
      rw [hsh]
      simp only [parseVal]
      rw [skipWs_cons_of _ (by decide)]
      simp only [show ¬(('-' : Char) = '"') from by decide,
        show ¬(('-' : Char) = '[') from by decide,
        show ¬(('-' : Char) = '\x7b') from by decide,
        show ¬(('-' : Char) = 't') from by decide,
        show ¬(('-' : Char) = 'f') from by decide,
        show ¬(('-' : Char) = 'n') from by decide,
        if_neg, if_false]
      rw [hin, parseInt_intChars n rest hr]
      rfl
    · obtain ⟨hq, hlb, hcb, ht, hf2, hn2, hws⟩ := digit_head_facts hdig
      rw [hsh]
      simp only [parseVal]
      rw [skipWs_cons_of _ hws]
      simp only [hq, hlb, hcb, ht, hf2, hn2, if_neg, if_false]
      rw [hin, parseInt_intChars n rest hr]
      rfl
  | bool b => cases b <;> rfl
  | null => rfl
  | list xs =>
    cases xs with
    | nil => rfl
    | cons v tl =>
      obtain ⟨c, cs, hd, hok⟩ := dumpVal_head v
      have hb : 1 + pySize v + pyListSize tl ≤ fuel := by
        simp [pySize, pyListSize] at hf
        omega
      have hsh : dumpVal (PyVal.list (PyList.cons v tl)) ++ rest
          = '[' :: (c :: (cs ++ (dumpListTail tl ++ ']' :: rest))) := by
        simp [dumpVal, hd]
      have hin : c :: (cs ++ (dumpListTail tl ++ ']' :: rest))
          = dumpVal v ++ (dumpListTail tl ++ ']' :: rest) := by
        rw [hd]
        rfl
      rw [hsh]
      simp only [parseVal]
      rw [skipWs_cons_of _ (by decide)]
      simp only [show ¬(('[' : Char) = '"') from by decide, if_neg, if_false,
        show (('[' : Char) = '[') from rfl, if_pos, if_true]
      rw [skipWs_cons_of _ (headOk_not_ws hok)]
      simp only [headOk_ne_rb hok, if_neg, if_false]
      rw [hin, parseListRest_dump fuel v tl rest hb]
      rfl
  | dict xs =>
    cases xs with
    | nil => rfl
    | cons k v tl =>
      have hb : 1 + pySize v + pyDictSize tl ≤ fuel := by
        simp [pySize, pyDictSize] at hf
        omega
      have hsh : dumpVal (PyVal.dict (PyDict.cons k v tl)) ++ rest
          = '\x7b' :: ('"' :: (k.toList.flatMap encChar
              ++ '"' :: (':' :: ' ' :: (dumpVal v ++ (dumpDictTail tl ++ '\x7d' :: rest))))) := by
        simp [dumpVal, encStr]
      have hin : ('"' :: (k.toList.flatMap encChar
              ++ '"' :: (':' :: ' ' :: (dumpVal v ++ (dumpDictTail tl ++ '\x7d' :: rest)))))
          = encStr k ++ (':' :: ' ' :: (dumpVal v ++ (dumpDictTail tl ++ '\x7d' :: rest))) := by
        simp [encStr]
      rw [hsh]
      simp only [parseVal]
      rw [skipWs_cons_of _ (by decide)]
      simp only [show ¬(('\x7b' : Char) = '"') from by decide, if_neg, if_false,
        show ¬(('\x7b' : Char) = '[') from by decide,
        show (('\x7b' : Char) = '\x7b') from rfl, if_pos, if_true]
      rw [skipWs_cons_of _ (by decide)]
      simp only [show ¬(('"' : Char) = '\x7d') from by decide, if_neg, if_false]
      rw [hin, parseDictRest_dump fuel k v tl rest hb]
      rfl

theorem parseListRest_dump : ∀ (fuel : Nat) (v : PyVal) (tl : PyList) (rest : List Char),
    1 + pySize v + pyListSize tl ≤ fuel →
    parseListRest fuel (dumpVal v ++ (dumpListTail tl ++ ']' :: rest))
      = some (PyList.cons v tl, rest)
| 0, v, tl, _, hb => absurd hb (by omega)
| Nat.succ fuel, v, tl, rest, hb => by
  simp only [parseListRest]
  rw [parseVal_dump fuel v (dumpListTail tl ++ ']' :: rest) (by omega)
    (noDigitHead_listTail tl rest)]
  cases tl with
  | nil =>
    simp only [dumpListTail, List.nil_append]
    rw [skipWs_cons_of _ (by decide)]
    simp
  | cons v2 tl2 =>
    have hb2 : 1 + pySize v2 + pyListSize tl2 ≤ fuel := by
      simp [pyListSize] at hb ⊢
      omega
    simp only [dumpListTail, List.cons_append, List.append_assoc]
    rw [skipWs_cons_of _ (by decide)]
    simp only [show ((',' : Char) = ',') from rfl, if_pos, if_true]
    rw [parseListRest_space, parseListRest_dump fuel v2 tl2 rest hb2]
    rfl

theorem parseDictRest_dump : ∀ (fuel : Nat) (k : String) (v : PyVal) (tl : PyDict)
    (rest : List Char), 1 + pySize v + pyDictSize tl ≤ fuel →
    parseDictRest fuel (encStr k ++ (':' :: ' ' :: (dumpVal v ++ (dumpDictTail tl ++ '\x7d' :: rest))))
      = some (PyDict.cons k v tl, rest)
| 0, k, v, tl, _, hb => absurd hb (by omega)
| Nat.succ fuel, k, v, tl, rest, hb => by
  have hsh : encStr k ++ (':' :: ' ' :: (dumpVal v ++ (dumpDictTail tl ++ '\x7d' :: rest)))
      = '"' :: (k.toList.flatMap encChar
          ++ '"' :: (':' :: ' ' :: (dumpVal v ++ (dumpDictTail tl ++ '\x7d' :: rest)))) := by
    simp [encStr]
  rw [hsh]
  simp only [parseDictRest]
  rw [skipWs_cons_of _ (by decide)]
  simp only [show (('"' : Char) = '"') from rfl, if_pos, if_true]
  rw [parseStrBody_enc]
  simp only []
  rw [skipWs_cons_of _ (by decide)]
  simp only [show ((':' : Char) = ':') from rfl, if_pos, if_true]
  rw [parseVal_space, parseVal_dump fuel v (dumpDictTail tl ++ '\x7d' :: rest) (by omega)
    (noDigitHead_dictTail tl rest)]
  cases tl with
  | nil =>
    simp only [dumpDictTail, List.nil_append]
    rw [skipWs_cons_of _ (by decide)]
    simp [string_mk_toList]
  | cons k2 v2 tl2 =>
    have hb2 : 1 + pySize v2 + pyDictSize tl2 ≤ fuel := by
      simp [pyDictSize] at hb ⊢
      omega
    simp only [dumpDictTail, List.cons_append, List.append_assoc]
    rw [skipWs_cons_of _ (by decide)]
    simp only [show ¬((',' : Char) = '\x7d') from by decide,
      show ((',' : Char) = ',') from rfl, if_pos, if_true]
    rw [parseDictRest_space, parseDictRest_dump fuel k2 v2 tl2 rest hb2]
    simp [string_mk_toList]

end


mutual

theorem dump_length : ∀ v : PyVal, pySize v ≤ (dumpVal v).length
| PyVal.str s => by simp [pySize, dumpVal, encStr]
| PyVal.int n => by
  have h : intChars n ≠ [] := by
    rw [intChars]
    split
    · simp
    · exact natChars_ne_nil _
  have := List.length_pos.mpr h
  simp [pySize, dumpVal]
  omega
| PyVal.bool true => by simp [pySize, dumpVal]
| PyVal.bool false => by simp [pySize, dumpVal]
| PyVal.null => by simp [pySize, dumpVal]
| PyVal.list PyList.nil => by simp [pySize, pyListSize, dumpVal]
| PyVal.list (PyList.cons v tl) => by
  have h1 := dump_length v
  have h2 := dumpList_length tl
  simp [pySize, pyListSize, dumpVal, List.length_append]
  omega
| PyVal.dict PyDict.nil => by simp [pySize, pyDictSize, dumpVal]
| PyVal.dict (PyDict.cons k v tl) => by
  have h1 := dump_length v
  have h2 := dumpDict_length tl
  simp [pySize, pyDictSize, dumpVal, List.length_append]
  omega

theorem dumpList_length : ∀ tl : PyList, pyListSize tl ≤ (dumpListTail tl).length
| PyList.nil => by simp [pyListSize, dumpListTail]
| PyList.cons v tl => by
  have h1 := dump_length v
  have h2 := dumpList_length tl
  simp [pyListSize, dumpListTail, List.length_append]
  omega

theorem dumpDict_length : ∀ tl : PyDict, pyDictSize tl ≤ (dumpDictTail tl).length
| PyDict.nil => by simp [pyDictSize, dumpDictTail]
| PyDict.cons k v tl => by
  have h1 := dump_length v
  have h2 := dumpDict_length tl
  simp [pyDictSize, dumpDictTail, List.length_append]
  omega

end

/-- The embedded json codec round-trips on every supported value. -/
theorem json_roundtrip (v : PyVal) : json_loads (json_dumps v) = some v := by
  unfold json_dumps json_loads
  have htl : (String.mk (dumpVal v)).toList = dumpVal v := rfl
  rw [htl]
  have h1 : parseVal ((dumpVal v).length + 1) (dumpVal v ++ []) = some (v, []) :=
    parseVal_dump _ v [] (by have := dump_length v; omega) trivial
  rw [List.append_nil] at h1
  rw [h1]
  rfl


/-- C4: for every supported value v (strings, numbers, booleans, null,
arrays, mappings — numbers embedded as integers), deserializing the
(type tag, stored text) pair produced by serializing v reproduces v:
deserialize_value (serialize_value v) = v. -/
theorem C4_codec_roundtrip (v : PyVal) :
    deserialize_value (serialize_value v).2 (serialize_value v).1 = some v := by
  cases v with
  | str s => rfl
  | int n =>
    show deserialize_value (json_dumps (PyVal.int n)) "int" = some (PyVal.int n)
    unfold deserialize_value
    rw [if_pos ⟨by decide, by decide⟩]
    exact json_roundtrip (PyVal.int n)
  | bool b =>
    show deserialize_value (json_dumps (PyVal.bool b)) "bool" = some (PyVal.bool b)
    unfold deserialize_value
    rw [if_pos ⟨by decide, by decide⟩]
    exact json_roundtrip (PyVal.bool b)
  | null =>
    show deserialize_value (json_dumps PyVal.null) "NoneType" = some PyVal.null
    unfold deserialize_value
    rw [if_pos ⟨by decide, by decide⟩]
    exact json_roundtrip PyVal.null
  | list xs =>
    show deserialize_value (json_dumps (PyVal.list xs)) "list" = some (PyVal.list xs)
    unfold deserialize_value
    rw [if_pos ⟨by decide, by decide⟩]
    exact json_roundtrip (PyVal.list xs)
  | dict xs =>
    show deserialize_value (json_dumps (PyVal.dict xs)) "dict" = some (PyVal.dict xs)
    unfold deserialize_value
    rw [if_pos ⟨by decide, by decide⟩]
    exact json_roundtrip (PyVal.dict xs)


/-! ## Relational schema (embedding of schema.py)

The ents relation has columns (key, created, modified); the attrs relation
has columns (key, ent_key, attr, value, type, modified).  The attrs key
column is a random uuid primary key that nothing reads; it is omitted from
the embedding.  Timestamps are naturals (milliseconds). -/

/-- One row of the ents table. -/
structure EntRow where
  key : String
  created : Nat
  modified : Nat
deriving DecidableEq, Repr

/-- One row of the attrs table (value and type tag as stored text). -/
structure AttrRow where
  ent_key : String
  attr : String
  value : String
  type_ : String
  modified : Nat
deriving DecidableEq, Repr

/-- The state of the store: the two relations. -/
structure DB where
  ents : List EntRow
  attrs : List AttrRow
deriving DecidableEq, Repr

/-! ## Declarative queries and their compilation (dao.py query engine) -/

/-- An argument bound into an entity-column comparison (string for the key
column, integer for the timestamp columns). -/
inductive SqlArg : Type where
| s (v : String) : SqlArg
| n (v : Nat) : SqlArg
deriving DecidableEq, Repr

/-- An attribute-level filter from a query's attr_filters list. -/
structure AttrFilter where
  attr : String
  op : String
  arg : String
deriving DecidableEq, Repr

/-- An entity-column filter from a query's ent_filters list. -/
structure EntFilter where
  col : String
  op : String
  arg : SqlArg
deriving DecidableEq, Repr

/-- The declarative query object consumed by query_ents. -/
structure Query where
  attrs_to_select : Option (List String)
  attr_filters : List AttrFilter
  ent_filters : List EntFilter
deriving DecidableEq, Repr

/-- Dao.BINARY_OPS. -/
def BINARY_OPS : List String := ["=", "<", ">", "<=", ">=", "LIKE"]

/-- Dao.EXISTENCE_OP. -/
def EXISTENCE_OP : String := "EXISTS"

/-- Classification outcome of get_filter_type. -/
inductive FilterType : Type where
| binary : FilterType
| existence : FilterType
deriving DecidableEq, Repr

/-- Errors raised while compiling a query (unknown filter type from
get_filter_type; KeyError from indexing outer_ents.c with an unknown
column name). -/
inductive CompileErr : Type where
| unknownFilterType : CompileErr
| unknownColumn : CompileErr
deriving DecidableEq, Repr

/-- Python str.lstrip('! '): remove every leading character that is an
exclamation mark or a space (this is what get_filter_type applies to the
operator before classifying it). -/
def lstripBangSpace (op : String) : String :=
  String.mk (op.toList.dropWhile (fun c => c == '!' || c == ' '))

/-- Embedding of Dao.parse_op: re.match(r'(! )?(.*)', op).  The optional
group matches exactly the two-character prefix "! "; the second group is
the remainder up to (not including) a newline, since '.' does not match a
newline. -/
def parse_op (op : String) : Bool × String :=
  if op.toList.take 2 = ['!', ' '] then
    (true, String.mk ((op.toList.drop 2).takeWhile (fun c => c != '\n')))
  else (false, String.mk (op.toList.takeWhile (fun c => c != '\n')))

/-- Embedding of Dao.get_filter_type: classify by the lstrip('! ')-stripped
operator; unknown operators raise. -/
def get_filter_type (op : String) : Except CompileErr FilterType :=
  let stripped := lstripBangSpace op
  if stripped ∈ BINARY_OPS then Except.ok FilterType.binary
  else if stripped = EXISTENCE_OP then Except.ok FilterType.existence
  else Except.error CompileErr.unknownFilterType

/-- Entity columns reachable from ent_filters through outer_ents.c[col]. -/
inductive EntCol : Type where
| key : EntCol
| created : EntCol
| modified : EntCol
deriving DecidableEq, Repr

/-- One per-binary-filter subquery joined into the from-clause: an alias of
attrs restricted to the filter's attribute name and to the (possibly
negated) comparison of the value column against the argument. -/
structure AttrBinSubq where
  attrName : String
  negated : Bool
  op : String
  arg : String
deriving DecidableEq, Repr

/-- A where-clause accumulated by the query-component builder. -/
inductive StWhere : Type where
| attrNameIn (names : List String) : StWhere
| attrExists (attrName : String) (negated : Bool) : StWhere
| entCmp (col : EntCol) (negated : Bool) (op : String) (arg : SqlArg) : StWhere
deriving DecidableEq, Repr

/-- The compiled statement: the base inner join of outer_ents to
outer_attrs (implicit), the per-binary-filter subquery joins, and the
AND-combined where clauses. -/
structure Statement where
  subqs : List AttrBinSubq
  wheres : List StWhere
deriving DecidableEq, Repr

/-- Embedding of _alter_ents_query_components_per_attr_filter: classify the
filter, then either join a fresh filtered subquery (binary) or add a
correlated existence predicate (existence); the comparison/negation comes
from parse_op on the original operator string. -/
def alterPerAttrFilter (st : Statement) (f : AttrFilter) : Except CompileErr Statement := do
  match ← get_filter_type f.op with
  | FilterType.binary =>
    let p := parse_op f.op
    Except.ok { st with subqs := st.subqs ++ [⟨f.attr, p.1, p.2, f.arg⟩] }
  | FilterType.existence =>
    let p := parse_op f.op
    Except.ok { st with wheres := st.wheres ++ [StWhere.attrExists f.attr p.1] }

/-- outer_ents.c[col]: indexing with an unknown column name raises. -/
def resolveEntCol (col : String) : Except CompileErr EntCol :=
  if col = "key" then Except.ok EntCol.key
  else if col = "created" then Except.ok EntCol.created
  else if col = "modified" then Except.ok EntCol.modified
  else Except.error CompileErr.unknownColumn

/-- Embedding of _alter_ents_query_components_per_ent_filter: no
classification happens; the operator goes through parse_op and the
comparison is attached against the named entity column. -/
def alterPerEntFilter (st : Statement) (f : EntFilter) : Except CompileErr Statement := do
  let col ← resolveEntCol f.col
  let p := parse_op f.op
  Except.ok { st with wheres := st.wheres ++ [StWhere.entCmp col p.1 p.2 f.arg] }

/-- Embedding of get_ents_query_components: start from the base components
(inner join, no wheres), constrain to attrs_to_select when truthy, then
fold the attribute filters and entity filters in order. -/
def get_ents_query_components (q : Query) : Except CompileErr Statement := do
  let base : Statement := ⟨[], []⟩
  let st1 := match q.attrs_to_select with
    | some l => if !l.isEmpty then { base with wheres := base.wheres ++ [StWhere.attrNameIn l] } else base
    | Option.none => base
  let st2 ← q.attr_filters.foldlM alterPerAttrFilter st1
  q.ent_filters.foldlM alterPerEntFilter st2

/-- Embedding of get_ents_query_statement; query_components_to_statement
only wraps the accumulated join graph and the AND of the accumulated
wheres into a select, which the Statement structure already is. -/
def get_ents_query_statement (q : Query) : Except CompileErr Statement :=
  get_ents_query_components q

/-! ## Executing a compiled statement against the store -/

/-- SQL LIKE pattern matching with the % and _ wildcards. -/
def likeMatch : List Char → List Char → Bool
| [], [] => true
| [], _ :: _ => false
| '%' :: ps, [] => likeMatch ps []
| '%' :: ps, c :: cs => likeMatch ps (c :: cs) || likeMatch ('%' :: ps) cs
| '_' :: ps, _ :: cs => likeMatch ps cs
| '_' :: _, [] => false
| p :: ps, c :: cs => p == c && likeMatch ps cs
| _ :: _, [] => false
termination_by ps cs => (cs.length, ps.length)

/-- Text comparison for the supported binary operators (SQLite compares
TEXT lexicographically); an operator string the database does not know is
embedded as an unsatisfied predicate, and no claim evaluates one. -/
def evalOp (op : String) (l r : String) : Bool :=
  if op = "=" then l == r
  else if op = "<" then decide (l < r)
  else if op = ">" then decide (r < l)
  else if op = "<=" then decide (l ≤ r)
  else if op = ">=" then decide (r ≤ l)
  else if op = "LIKE" then likeMatch r.toList l.toList
  else false

/-- Integer comparison for the supported binary operators. -/
def evalOpNat (op : String) (l r : Nat) : Bool :=
  if op = "=" then l == r
  else if op = "<" then decide (l < r)
  else if op = ">" then decide (r < l)
  else if op = "<=" then decide (l ≤ r)
  else if op = ">=" then decide (r ≤ l)
  else false

/-- The (possibly negated) value predicate of a binary-filter subquery. -/
def evalBinSubqPred (sq : AttrBinSubq) (v : String) : Bool :=
  let b := evalOp sq.op v sq.arg
  if sq.negated then !b else b

/-- The base from-clause: outer_ents inner-joined to outer_attrs on the
foreign key ents.key = attrs.ent_key (SQLAlchemy infers this join
condition). -/
def baseRows (db : DB) : List (EntRow × AttrRow) :=
  db.ents.flatMap (fun e => (db.attrs.filter (fun a => a.ent_key == e.key)).map (fun a => (e, a)))

/-- Joining one binary-filter subquery: each accumulated row is multiplied
by the subquery rows that share its outer entity key (the FK-inferred join
condition); entities with no matching subquery row are dropped. -/
def applySubq (db : DB) (rows : List (EntRow × AttrRow)) (sq : AttrBinSubq) :
    List (EntRow × AttrRow) :=
  rows.flatMap (fun r =>
    ((db.attrs.filter (fun a2 => a2.attr == sq.attrName && evalBinSubqPred sq a2.value)).filter
      (fun a2 => a2.ent_key == r.1.key)).map (fun _ => r))

/-- Comparison of an entity column against a bound argument; comparisons
between mismatched affinities are out of the modeled scope. -/
def evalEntCmp (col : EntCol) (e : EntRow) (op : String) (arg : SqlArg) : Bool :=
  match col, arg with
  | EntCol.key, SqlArg.s s => evalOp op e.key s
  | EntCol.created, SqlArg.n n => evalOpNat op e.created n
  | EntCol.modified, SqlArg.n n => evalOpNat op e.modified n
  | _, _ => false

/-- Evaluation of one accumulated where-clause at a joined row. -/
def evalStWhere (db : DB) (e : EntRow) (a : AttrRow) : StWhere → Bool
| StWhere.attrNameIn names => names.contains a.attr
| StWhere.attrExists x neg =>
  let b := db.attrs.any (fun a2 => a2.attr == x && a2.ent_key == e.key)
  if neg then !b else b
| StWhere.entCmp col neg op arg =>
  let b := evalEntCmp col e op arg
  if neg then !b else b

/-- The five projected output columns of one result row. -/
structure Row where
  attr : String
  value : String
  type_ : String
  ent_key : String
  ent_modified : Nat
deriving DecidableEq, Repr

/-- Execute a compiled statement: build the join graph, apply the
AND-combined wheres, project the five output columns (attr, value, type
from outer_attrs; ent_key, ent_modified from outer_ents). -/
def runStatement (db : DB) (st : Statement) : List Row :=
  ((st.subqs.foldl (applySubq db) (baseRows db)).filter
    (fun r => st.wheres.all (fun w => evalStWhere db r.1 r.2 w))).map
    (fun r => ⟨r.2.attr, r.2.value, r.2.type_, r.1.key, r.1.modified⟩)

/-! ## Row reconstruction (ent_attr_dicts_to_ent_dicts) -/

/-- A reconstructed entity: key, entity modified timestamp, and the decoded
attribute mapping (a failed decode, which Python reports by raising, is
embedded as Option.none in the mapping). -/
structure EntDict where
  key : String
  modified : Nat
  attrs : List (String × Option PyVal)

/-- Python dict lookup on an insertion-ordered association list. -/
def lookupStr {α : Type} : List (String × α) → String → Option α
| [], _ => Option.none
| (k0, v0) :: tl, k => if k0 == k then some v0 else lookupStr tl k

/-- Python dict item assignment: replace in place, else append. -/
def dictSet {α : Type} : List (String × α) → String → α → List (String × α)
| [], k, v => [(k, v)]
| (k0, v0) :: tl, k, v =>
  if k0 == k then (k0, v) :: tl else (k0, v0) :: dictSet tl k v

/-- Update the entry stored under a key in place. -/
def dictModify {α : Type} : List (String × α) → String → (α → α) → List (String × α)
| [], _, _ => []
| (k0, v0) :: tl, k, f =>
  if k0 == k then (k0, f v0) :: tl else (k0, v0) :: dictModify tl k f

/-- Embedding of ent_attr_dicts_to_ent_dicts: fold the flat row stream into
an insertion-ordered mapping keyed by entity key; the first row seen for a
key establishes the modified timestamp and each row adds one decoded
attribute entry. -/
def ent_attr_dicts_to_ent_dicts (rows : List Row) : List (String × EntDict) :=
  rows.foldl (fun acc row =>
    let acc2 := match lookupStr acc row.ent_key with
      | some _ => acc
      | Option.none => acc ++ [(row.ent_key, ⟨row.ent_key, row.ent_modified, []⟩)]
    dictModify acc2 row.ent_key
      (fun ed => { ed with attrs := dictSet ed.attrs row.attr (deserialize_value row.value row.type_) }))
    []

/-- Embedding of query_ents: compile the query, execute it, reconstruct. -/
def query_ents (db : DB) (q : Query) : Except CompileErr (List (String × EntDict)) :=
  (get_ents_query_statement q).map (fun st => ent_attr_dicts_to_ent_dicts (runStatement db st))

/-! ## Mutations (dao.py CRUD, optimistic update, upsert) -/

/-- Errors an operation can raise: the store's uniqueness violation on the
ents primary key (sqlalchemy.exc.IntegrityError), the optimistic
concurrency failure (Dao.StaleEntError), the KeyError from indexing the
re-read result in create_ent, the AttributeError from patches.keys() when
update_ent_attrs receives patches=None, and a query-compile error escaping
through query_ents. -/
inductive Err : Type where
| integrityError : Err
| staleEntError : Err
| keyError : Err
| attributeError : Err
| queryCompileError (e : CompileErr) : Err
deriving DecidableEq, Repr

/-- Patches applicable to the non-key columns of an ents row through the
ent_patches argument (a Python dict of column values). -/
structure EntPatches where
  created : Option Nat
  modified : Option Nat
deriving DecidableEq, Repr

/-- Python truthiness of the ent_patches dict. -/
def truthyPatches : Option EntPatches → Bool
| Option.none => false
| some p => p.created.isSome || p.modified.isSome

/-- Python truthiness of an optional list/dict argument. -/
def truthyList {α : Type} : Option (List α) → Bool
| Option.none => false
| some l => !l.isEmpty

/-- Python truthiness of the ent_modified argument (None and 0 are falsy). -/
def truthyNat : Option Nat → Bool
| Option.none => false
| some m => m != 0

/-- Effect of the UPDATE built by patch_ent on one matched row: the given
column values are applied and the modified column's onupdate default fires
exactly when the statement carries values and modified is not among them,
or when the statement carries no values at all (SQLAlchemy includes
onupdate columns in every UPDATE against the table). -/
def applyEntPatches (e : EntRow) (patches : Option EntPatches) (t : Nat) : EntRow :=
  if truthyPatches patches then
    let p := patches.getD ⟨Option.none, Option.none⟩
    { e with created := p.created.getD e.created,
             modified := match p.modified with
               | some m => m
               | Option.none => t }
  else { e with modified := t }

/-- The where clauses patch_ent receives besides key equality (its only
caller with wheres passes a modified-equality clause). -/
inductive EntWhere : Type where
| modifiedEq (m : Nat) : EntWhere
deriving DecidableEq, Repr

/-- Evaluation of one extra where clause at an ents row. -/
def evalEntWhere (e : EntRow) : EntWhere → Bool
| EntWhere.modifiedEq m => e.modified == m

/-- Embedding of Dao.patch_ent: UPDATE ents SET [patches] WHERE key =
ent_key AND wheres; returns the new state and the matched row count. -/
def patch_ent (db : DB) (ent_key : String) (patches : Option EntPatches)
    (wheres : List EntWhere) (t : Nat) : DB × Nat :=
  let hit := fun (e : EntRow) => e.key == ent_key && wheres.all (evalEntWhere e)
  (⟨db.ents.map (fun e => if hit e then applyEntPatches e patches t else e), db.attrs⟩,
   (db.ents.filter hit).length)

/-- Embedding of Dao.validate_and_update_ent_modified: conditionally update
the row gated on modified == expected; raise StaleEntError unless exactly
one row matched. -/
def validate_and_update_ent_modified (db : DB) (ent_key : String) (modified : Nat)
    (t : Nat) : Except Err DB :=
  let r := patch_ent db ent_key Option.none [EntWhere.modifiedEq modified] t
  if r.2 ≠ 1 then Except.error Err.staleEntError else Except.ok r.1

/-- The attrs row inserted for one (attr, value) pair: the codec-serialized
value and type tag, and the row's own modified timestamp. -/
def serializeAttrRow (ent_key : String) (kv : String × PyVal) (t : Nat) : AttrRow :=
  let sv := serialize_value kv.2
  ⟨ent_key, kv.1, sv.2, sv.1, t⟩

/-- Embedding of Dao.create_attrs: bulk-insert one row per attribute. -/
def create_attrs (db : DB) (ent_key : String) (attrs : List (String × PyVal)) (t : Nat) : DB :=
  ⟨db.ents, db.attrs ++ attrs.map (fun kv => serializeAttrRow ent_key kv t)⟩

/-- Embedding of Dao.delete_attrs: no-op on an empty name list, otherwise
DELETE FROM attrs WHERE ent_key = key AND attr IN names. -/
def delete_attrs (db : DB) (ent_key : String) (attrs_to_delete : List String) : DB :=
  if attrs_to_delete.isEmpty then db
  else ⟨db.ents, db.attrs.filter (fun a => !(a.ent_key == ent_key && attrs_to_delete.contains a.attr))⟩

/-- Embedding of Dao.update_ent_attrs: delete every attribute named in
patches or deletions, then insert the patches whose names are not in
deletions.  A None patches dict raises AttributeError at patches.keys(). -/
def update_ent_attrs (db : DB) (ent_key : String) (patches : Option (List (String × PyVal)))
    (deletions : Option (List String)) (t : Nat) : Except Err DB :=
  match patches with
  | Option.none => Except.error Err.attributeError
  | some P =>
    let D := deletions.getD []
    let attrs_to_delete := P.map Prod.fst ++ D
    let patches_to_insert := P.filter (fun kv => !D.contains kv.1)
    let db1 := delete_attrs db ent_key attrs_to_delete
    Except.ok (if !patches_to_insert.isEmpty then create_attrs db1 ent_key patches_to_insert t else db1)

/-- Embedding of Dao.update_ent: one transaction that optionally validates
the expected modified stamp, optionally rewrites the attribute set, and
always runs patch_ent (advancing modified via its onupdate default); any
error rolls the whole transaction back, leaving the pre-call state. -/
def update_ent (db : DB) (ent_key : String) (ent_patches : Option EntPatches)
    (attr_patches : Option (List (String × PyVal))) (attr_deletions : Option (List String))
    (ent_modified : Option Nat) (t : Nat) : DB × Option Err :=
  match (if truthyNat ent_modified then
      validate_and_update_ent_modified db ent_key (ent_modified.getD 0) t
    else Except.ok db) with
  | Except.error e => (db, some e)
  | Except.ok db1 =>
    match (if truthyList attr_patches || truthyList attr_deletions then
        update_ent_attrs db1 ent_key attr_patches attr_deletions t
      else Except.ok db1) with
    | Except.error e => (db, some e)
    | Except.ok db2 => ((patch_ent db2 ent_key ent_patches [] t).1, Option.none)

/-- The ents row inserted by create_ent: created defaults to now;
modified's default is created_or_int_time, which reads the created value
from the current parameters and falls back to now when it is falsy (the
Python or of schema.created_or_int_time). -/
def mkEntRow (ent_key : String) (ent_patches : Option EntPatches) (t : Nat) : EntRow :=
  let createdParam : Option Nat := match ent_patches with
    | some p => p.created
    | Option.none => Option.none
  let created := createdParam.getD t
  let modifiedParam : Option Nat := match ent_patches with
    | some p => p.modified
    | Option.none => Option.none
  let modified := match modifiedParam with
    | some m => m
    | Option.none => if created ≠ 0 then created else t
  ⟨ent_key, created, modified⟩

/-- The re-read query create_ent issues for the new key. -/
def keyQuery (k : String) : Query :=
  ⟨Option.none, [], [⟨"key", "=", SqlArg.s k⟩]⟩

/-- Embedding of Dao.create_ent: insert the ents row (the primary key
rejects an existing key with IntegrityError), bulk-insert the attributes
when truthy, then re-read through query_ents filtered on the new key and
index the result with the key (KeyError when absent).  Without an
enclosing transaction each statement autocommits, so the inserted rows
persist even when the indexing raises. -/
def create_ent (db : DB) (ent_key : String) (ent_patches : Option EntPatches)
    (attrs : Option (List (String × PyVal))) (t : Nat) : DB × Except Err EntDict :=
  if db.ents.any (fun e => e.key == ent_key) then (db, Except.error Err.integrityError)
  else
    let db1 : DB := ⟨db.ents ++ [mkEntRow ent_key ent_patches t], db.attrs⟩
    let db2 := if truthyList attrs then create_attrs db1 ent_key (attrs.getD []) t else db1
    match query_ents db2 (keyQuery ent_key) with
    | Except.error ce => (db2, Except.error (Err.queryCompileError ce))
    | Except.ok ents =>
      match lookupStr ents ent_key with
      | some ed => (db2, Except.ok ed)
      | Option.none => (db2, Except.error Err.keyError)

/-- Embedding of Dao.upsert_ent: inside one transaction, attempt
create_ent; on IntegrityError specifically, fall back to update_ent; any
other error propagates and the transaction rolls back everything. -/
def upsert_ent (db : DB) (ent_key : String) (ent_patches : Option EntPatches)
    (attr_patches : Option (List (String × PyVal))) (attr_deletions : Option (List String))
    (t : Nat) : DB × Except Err (Option EntDict) :=
  match create_ent db ent_key ent_patches attr_patches t with
  | (db2, Except.ok ed) => (db2, Except.ok (some ed))
  | (_, Except.error Err.integrityError) =>
    match update_ent db ent_key ent_patches attr_patches attr_deletions Option.none t with
    | (db2, Option.none) => (db2, Except.ok Option.none)
    | (_, some e) => (db, Except.error e)
  | (_, Except.error e) => (db, Except.error e)

/-! ## Lemmas about query evaluation -/

theorem mem_applySubq {db : DB} {rows : List (EntRow × AttrRow)} {sq : AttrBinSubq}
    {r : EntRow × AttrRow} (h : r ∈ applySubq db rows sq) : r ∈ rows := by
  unfold applySubq at h
  rw [List.mem_flatMap] at h
  obtain ⟨r0, hr0, hmem⟩ := h
  rw [List.mem_map] at hmem
  obtain ⟨a2, _, heq⟩ := hmem
  rw [← heq]
  exact hr0

theorem mem_foldl_applySubq {db : DB} {sqs : List AttrBinSubq} :
    ∀ {rows : List (EntRow × AttrRow)} {r : EntRow × AttrRow},
    r ∈ List.foldl (applySubq db) rows sqs → r ∈ rows := by
  induction sqs with
  | nil => intro rows r h; simpa using h
  | cons sq sqs ih =>
    intro rows r h
    rw [List.foldl_cons] at h
    exact mem_applySubq (ih h)

theorem mem_baseRows {db : DB} {r : EntRow × AttrRow} (h : r ∈ baseRows db) :
    r.1 ∈ db.ents ∧ r.2 ∈ db.attrs ∧ r.2.ent_key = r.1.key := by
  unfold baseRows at h
  rw [List.mem_flatMap] at h
  obtain ⟨e, he, hmem⟩ := h
  rw [List.mem_map] at hmem
  obtain ⟨a, ha, heq⟩ := hmem
  rw [List.mem_filter] at ha
  subst heq
  exact ⟨he, ha.1, by simpa using ha.2⟩

theorem mem_runStatement {db : DB} {st : Statement} {row : Row}
    (h : row ∈ runStatement db st) :
    ∃ e a, e ∈ db.ents ∧ a ∈ db.attrs ∧ a.ent_key = e.key ∧ row.ent_key = e.key := by
  unfold runStatement at h
  rw [List.mem_map] at h
  obtain ⟨r, hr, heq⟩ := h
  rw [List.mem_filter] at hr
  have hb := mem_baseRows (mem_foldl_applySubq hr.1)
  exact ⟨r.1, r.2, hb.1, hb.2.1, hb.2.2, by rw [← heq]⟩

theorem dictModify_keys {α : Type} (l : List (String × α)) (k : String) (f : α → α) :
    (dictModify l k f).map Prod.fst = l.map Prod.fst := by
  induction l with
  | nil => rfl
  | cons hd tl ih =>
    obtain ⟨k0, v0⟩ := hd
    unfold dictModify
    by_cases h : k0 == k
    · rw [if_pos h]
      simp
    · rw [if_neg h]
      simp [ih]

theorem lookupStr_some_mem {α : Type} {l : List (String × α)} {k : String} {v : α}
    (h : lookupStr l k = some v) : k ∈ l.map Prod.fst := by
  induction l with
  | nil => simp [lookupStr] at h
  | cons hd tl ih =>
    obtain ⟨k0, v0⟩ := hd
    unfold lookupStr at h
    by_cases he : k0 == k
    · simp only [List.map_cons, List.mem_cons]
      exact Or.inl (by have := beq_iff_eq.mp he; rw [this])
    · rw [if_neg he] at h
      simp only [List.map_cons, List.mem_cons]
      exact Or.inr (ih h)

theorem keys_ent_attr_dicts (rows : List Row) :
    ∀ (acc : List (String × EntDict)) (k : String),
    k ∈ ((rows.foldl (fun acc row =>
      let acc2 := match lookupStr acc row.ent_key with
        | some _ => acc
        | Option.none => acc ++ [(row.ent_key, ⟨row.ent_key, row.ent_modified, []⟩)]
      dictModify acc2 row.ent_key
        (fun ed => { ed with attrs := dictSet ed.attrs row.attr (deserialize_value row.value row.type_) }))
      acc).map Prod.fst) →
    k ∈ acc.map Prod.fst ∨ ∃ r ∈ rows, r.ent_key = k := by
  induction rows with
  | nil => intro acc k h; exact Or.inl (by simpa using h)
  | cons row rows ih =>
    intro acc k h
    rw [List.foldl_cons] at h
    have h2 := ih _ k h
    rcases h2 with h2 | h2
    · rw [dictModify_keys] at h2
      by_cases hl : (lookupStr acc row.ent_key).isSome
      · obtain ⟨v, hv⟩ := Option.isSome_iff_exists.mp hl
        rw [hv] at h2
        exact Or.inl h2
      · rw [Option.not_isSome_iff_eq_none] at hl
        rw [hl] at h2
        simp only [List.map_append, List.map_cons, List.map_nil, List.mem_append,
          List.mem_singleton] at h2
        rcases h2 with h2 | h2
        · exact Or.inl h2
        · exact Or.inr ⟨row, List.mem_cons_self _ _, h2.symm⟩
    · exact Or.inr (by obtain ⟨r, hr, hk⟩ := h2; exact ⟨r, List.mem_cons_of_mem _ hr, hk⟩)

theorem query_result_key_has_attr_row {db : DB} {q : Query} {res : List (String × EntDict)}
    {k : String} {ed : EntDict} (hres : query_ents db q = Except.ok res)
    (hk : lookupStr res k = some ed) : ∃ a ∈ db.attrs, a.ent_key = k := by
  unfold query_ents at hres
  cases hst : get_ents_query_statement q with
  | error ce => rw [hst] at hres; simp [Except.map] at hres
  | ok st =>
    rw [hst] at hres
    simp only [Except.map] at hres
    have hres2 : ent_attr_dicts_to_ent_dicts (runStatement db st) = res := by
      cases hres
      rfl
    have hmem := lookupStr_some_mem hk
    rw [← hres2] at hmem
    unfold ent_attr_dicts_to_ent_dicts at hmem
    have h3 := keys_ent_attr_dicts (runStatement db st) [] k hmem
    rcases h3 with h3 | h3
    · simp at h3
    · obtain ⟨r, hr, hrk⟩ := h3
      obtain ⟨e, a, _, ha, hak, hek⟩ := mem_runStatement hr
      exact ⟨a, ha, by rw [hak, ← hek, hrk]⟩


/-! ## Claim C1 -/

/-- C1 counterexample: a store holding one entity with zero attribute rows;
the query with no attribute filters (and no other constraints) returns an
empty result — the attribute-less entity does not appear, because the base
statement inner-joins ents to attrs. -/
theorem C1_counterexample :
    query_ents ⟨[⟨"e1", 5, 5⟩], []⟩ ⟨Option.none, [], []⟩ = Except.ok []
    ∧ (⟨[⟨"e1", 5, 5⟩], []⟩ : DB).ents = [⟨"e1", 5, 5⟩] := by
  exact ⟨rfl, rfl⟩

/-- C1 (amended): the compiled base statement joins Entities to Attributes
with an INNER join, so for every query whose attr_filters list is empty, an
entity with no attribute rows never appears in the result of query_ents. -/
theorem C1_inner_join_drops_attrless (db : DB) (q : Query) (k : String)
    (res : List (String × EntDict)) (hq : q.attr_filters = [])
    (hnoattr : ∀ a ∈ db.attrs, a.ent_key ≠ k)
    (hres : query_ents db q = Except.ok res) :
    lookupStr res k = Option.none := by
  cases hl : lookupStr res k with
  | none => rfl
  | some ed =>
    obtain ⟨a, ha, hak⟩ := query_result_key_has_attr_row hres hl
    exact absurd hak (hnoattr a ha)

/-- Witness for C1's amended theorem at a concrete store and query. -/
theorem C1_inner_join_drops_attrless_witness :
    lookupStr [] "e1" = (Option.none : Option EntDict) :=
  C1_inner_join_drops_attrless ⟨[⟨"e1", 5, 5⟩], []⟩ ⟨Option.none, [], []⟩ "e1" []
    rfl (by intro a ha; simp at ha) rfl

/-! ## Claim C10 -/

/-- C10: create_ent with absent (or empty, i.e. falsy) attrs inserts the
entity row and then raises KeyError: the re-read joins ents to attrs
(inner join), yields no row for the attribute-less entity, and indexing
the reconstructed mapping with the new key fails.  The inserted row
persists because no enclosing transaction wraps the autocommitted
statements. -/
theorem C10_create_no_attrs (db : DB) (k : String) (p : Option EntPatches)
    (attrs : Option (List (String × PyVal))) (t : Nat)
    (hk : ∀ e ∈ db.ents, e.key ≠ k)
    (ha : ∀ a ∈ db.attrs, a.ent_key ≠ k)
    (hempty : truthyList attrs = false) :
    create_ent db k p attrs t
      = (⟨db.ents ++ [mkEntRow k p t], db.attrs⟩, Except.error Err.keyError) := by
  have hany : db.ents.any (fun e => e.key == k) = false := by
    rw [List.any_eq_false]
    intro e he
    simpa using hk e he
  have hrun : runStatement ⟨db.ents ++ [mkEntRow k p t], db.attrs⟩
      ⟨[], [StWhere.entCmp EntCol.key false "=" (SqlArg.s k)]⟩ = [] := by
    unfold runStatement
    simp only [List.foldl_nil]
    rw [List.map_eq_nil_iff, List.filter_eq_nil_iff]
    intro r hr
    have hb := mem_baseRows hr
    rcases List.mem_append.mp hb.1 with hin | hnew
    · have hne := hk r.1 hin
      simp [evalStWhere, evalEntCmp, evalOp, hne]
    · exfalso
      have hk1 : r.1.key = k := by
        rw [List.mem_singleton] at hnew
        rw [hnew]
        rfl
      exact ha r.2 hb.2.1 (by rw [hb.2.2, hk1])
  have hqe : query_ents (⟨db.ents ++ [mkEntRow k p t], db.attrs⟩ : DB) (keyQuery k)
      = Except.ok [] := by
    unfold query_ents
    rw [show get_ents_query_statement (keyQuery k)
      = Except.ok ⟨[], [StWhere.entCmp EntCol.key false "=" (SqlArg.s k)]⟩ from rfl]
    simp only [Except.map, hrun]
    rfl
  unfold create_ent
  rw [hany]
  simp only [Bool.false_eq_true, if_false, hempty]
  rw [hqe]
  rfl

/-- Witness for C10 at the empty store. -/
theorem C10_create_no_attrs_witness :
    create_ent ⟨[], []⟩ "k" Option.none Option.none 7
      = (⟨[⟨"k", 7, 7⟩], []⟩, Except.error Err.keyError) := by
  have h := C10_create_no_attrs ⟨[], []⟩ "k" Option.none Option.none 7
    (by intro e he; simp at he) (by intro a ha; simp at ha) rfl
  rw [h]
  rfl

/-! ## Claim C2 -/

theorem filter_key_patch (l : List EntRow) (k : String) (g : EntRow → EntRow)
    (hit : EntRow → Bool) (hg : ∀ e, (g e).key = e.key) :
    ((l.map (fun e => if hit e then g e else e)).filter (fun e => e.key == k))
      = (l.filter (fun e => e.key == k)).map (fun e => if hit e then g e else e) := by
  rw [List.filter_map]
  congr 1
  apply List.filter_congr
  intro e _
  by_cases h : hit e
  · simp [h, hg]
  · simp [h]

theorem update_ent_attrs_ents (db : DB) (k : String) (P : List (String × PyVal))
    (D : Option (List String)) (t : Nat) :
    ∀ db2, update_ent_attrs db k (some P) D t = Except.ok db2 → db2.ents = db.ents := by
  intro db2 h
  unfold update_ent_attrs at h
  simp only [Except.ok.injEq] at h
  rw [← h]
  unfold create_attrs delete_attrs
  split <;> split <;> rfl

theorem applyEntPatches_key (e : EntRow) (p : Option EntPatches) (t : Nat) :
    (applyEntPatches e p t).key = e.key := by
  unfold applyEntPatches
  split <;> rfl

theorem update_ent_validated_ok (db : DB) (k : String) (e : EntRow) (m0 t : Nat)
    (P : List (String × PyVal)) (D : Option (List String))
    (hk : db.ents.filter (fun e2 => e2.key == k) = [e])
    (hm : e.modified = m0) (hm0 : m0 ≠ 0) :
    (update_ent db k Option.none (some P) D (some m0) t).2 = Option.none
    ∧ ((update_ent db k Option.none (some P) D (some m0) t).1.ents.filter
        (fun e2 => e2.key == k)) = [{ e with modified := t }] := by
  have hek : (e.key == k) = true := by
    have he : e ∈ db.ents.filter (fun e2 => e2.key == k) := by
      rw [hk]
      exact List.mem_singleton_self e
    exact (List.mem_filter.mp he).2
  have hcnt : db.ents.filter
      (fun e2 => e2.key == k && [EntWhere.modifiedEq m0].all (evalEntWhere e2)) = [e] := by
    have hsplit : db.ents.filter
        (fun e2 => e2.key == k && [EntWhere.modifiedEq m0].all (evalEntWhere e2))
        = (db.ents.filter (fun e2 => e2.key == k)).filter
            (fun e2 => e2.modified == m0) := by
      rw [List.filter_filter]
      apply List.filter_congr
      intro a _
      simp [evalEntWhere, Bool.and_comm]
    rw [hsplit, hk]
    simp [hm]
  have htr : truthyNat (some m0) = true := by
    simp only [truthyNat]
    simpa using hm0
  have hval : validate_and_update_ent_modified db k ((some m0).getD 0) t
      = Except.ok ⟨db.ents.map (fun e2 =>
          if e2.key == k && [EntWhere.modifiedEq m0].all (evalEntWhere e2)
          then applyEntPatches e2 Option.none t else e2), db.attrs⟩ := by
    unfold validate_and_update_ent_modified patch_ent
    simp only [Option.getD, hcnt, List.length_singleton]
    rw [if_neg (by simp)]
  have hmain : ∃ A2, update_ent db k Option.none (some P) D (some m0) t
      = (⟨(db.ents.map (fun e2 =>
          if e2.key == k && [EntWhere.modifiedEq m0].all (evalEntWhere e2)
          then applyEntPatches e2 Option.none t else e2)).map (fun e2 =>
          if e2.key == k && ([] : List EntWhere).all (evalEntWhere e2)
          then applyEntPatches e2 Option.none t else e2), A2⟩, Option.none) := by
    unfold update_ent
    rw [if_pos htr, hval]
    simp only []
    by_cases hT : (truthyList (some P) || truthyList D) = true
    · rw [if_pos hT]
      cases hA : update_ent_attrs ⟨db.ents.map (fun e2 =>
          if e2.key == k && [EntWhere.modifiedEq m0].all (evalEntWhere e2)
          then applyEntPatches e2 Option.none t else e2), db.attrs⟩ k (some P) D t with
      | error e2 => exact absurd hA (by unfold update_ent_attrs; simp)
      | ok db2 =>
        simp only []
        have hents := update_ent_attrs_ents _ k P D t db2 hA
        refine ⟨db2.attrs, ?_⟩
        unfold patch_ent
        rw [hents]
    · rw [if_neg hT]
      simp only []
      exact ⟨db.attrs, rfl⟩
  obtain ⟨A2, hmain⟩ := hmain
  rw [hmain]
  refine ⟨rfl, ?_⟩
  simp only []
  rw [filter_key_patch _ _ _ _ (fun e2 => applyEntPatches_key e2 Option.none t),
    filter_key_patch _ _ _ _ (fun e2 => applyEntPatches_key e2 Option.none t), hk]
  have hkeq : e.key = k := by simpa using hek
  simp [evalEntWhere, applyEntPatches, truthyPatches, hkeq, hm]

theorem update_ent_stale (db : DB) (k : String) (m0 t : Nat)
    (ep : Option EntPatches) (P : Option (List (String × PyVal))) (D : Option (List String))
    (hm0 : m0 ≠ 0)
    (hcnt : (db.ents.filter (fun e2 => e2.key == k && e2.modified == m0)).length ≠ 1) :
    update_ent db k ep P D (some m0) t = (db, some Err.staleEntError) := by
  have htr : truthyNat (some m0) = true := by
    simp only [truthyNat]
    simpa using hm0
  have hcnt2 : (db.ents.filter (fun e2 =>
      e2.key == k && [EntWhere.modifiedEq m0].all (evalEntWhere e2))).length ≠ 1 := by
    have : db.ents.filter (fun e2 =>
        e2.key == k && [EntWhere.modifiedEq m0].all (evalEntWhere e2))
        = db.ents.filter (fun e2 => e2.key == k && e2.modified == m0) := by
      apply List.filter_congr
      intro a _
      simp [evalEntWhere]
    rw [this]
    exact hcnt
  have hval : validate_and_update_ent_modified db k ((some m0).getD 0) t
      = Except.error Err.staleEntError := by
    unfold validate_and_update_ent_modified patch_ent
    simp only [Option.getD]
    rw [if_pos hcnt2]
  unfold update_ent
  rw [if_pos htr, hval]

/-- C2: optimistic concurrency.  (a) When the stored modified equals the
supplied expected value (and there is exactly one row for the key),
update_ent with ent_modified set succeeds and advances modified to the
call's timestamp.  (b) When the stored modified differs, the conditional
update matches zero rows, update_ent returns StaleEntError, and the store
is left in its pre-call state.  (c) Calling update_ent twice in sequence
with the same expected value m0 taken from the entity's initial state (the
first call running at a time t1 different from m0, as the wall clock has
advanced) makes the first call succeed and the second fail with
StaleEntError, again rolling back. -/
theorem C2_optimistic_concurrency (db : DB) (k : String) (e : EntRow) (m0 t1 t2 : Nat)
    (P P2 : List (String × PyVal)) (D D2 : Option (List String))
    (hk : db.ents.filter (fun e2 => e2.key == k) = [e]) (hm0 : m0 ≠ 0) :
    ((e.modified = m0) →
      (update_ent db k Option.none (some P) D (some m0) t1).2 = Option.none
      ∧ ((update_ent db k Option.none (some P) D (some m0) t1).1.ents.filter
          (fun e2 => e2.key == k)) = [{ e with modified := t1 }])
    ∧ (e.modified ≠ m0 →
      update_ent db k Option.none (some P) D (some m0) t1 = (db, some Err.staleEntError))
    ∧ (e.modified = m0 → t1 ≠ m0 →
      update_ent ((update_ent db k Option.none (some P) D (some m0) t1).1) k Option.none
          (some P2) D2 (some m0) t2
        = ((update_ent db k Option.none (some P) D (some m0) t1).1,
           some Err.staleEntError)) := by
  have hsplit : ∀ (l : List EntRow),
      l.filter (fun e2 => e2.key == k && e2.modified == m0)
        = (l.filter (fun e2 => e2.key == k)).filter (fun e2 => e2.modified == m0) := by
    intro l
    rw [List.filter_filter]
    apply List.filter_congr
    intro a _
    simp [Bool.and_comm]
  refine ⟨?_, ?_, ?_⟩
  · intro hm
    exact update_ent_validated_ok db k e m0 t1 P D hk hm hm0
  · intro hm
    apply update_ent_stale db k m0 t1 Option.none (some P) D hm0
    rw [hsplit, hk]
    simp [hm]
  · intro hm ht1
    have h1 := update_ent_validated_ok db k e m0 t1 P D hk hm hm0
    apply update_ent_stale _ k m0 t2 Option.none (some P2) D2 hm0
    rw [hsplit, h1.2]
    simp [ht1]

/-- Witness for C2 at a concrete store: entity with modified 5; the first
optimistic update at t=9 succeeds, the second with the same expectation
fails with StaleEntError and leaves the first call's state. -/
theorem C2_optimistic_concurrency_witness :
    update_ent ((update_ent ⟨[⟨"k", 5, 5⟩], []⟩ "k" Option.none (some [("a", PyVal.int 1)])
        Option.none (some 5) 9).1) "k" Option.none (some [("a", PyVal.int 2)]) Option.none
        (some 5) 12
      = ((update_ent ⟨[⟨"k", 5, 5⟩], []⟩ "k" Option.none (some [("a", PyVal.int 1)])
          Option.none (some 5) 9).1, some Err.staleEntError) :=
  (C2_optimistic_concurrency ⟨[⟨"k", 5, 5⟩], []⟩ "k" ⟨"k", 5, 5⟩ 5 9 12
    [("a", PyVal.int 1)] [("a", PyVal.int 2)] Option.none Option.none
    (by decide) (by decide)).2.2 rfl (by decide)

/-! ## Claim C3 -/

/-- First stored (value, type tag) pair for attribute x of entity k. -/
def attrLookup (db : DB) (k x : String) : Option (String × String) :=
  ((db.attrs.filter (fun a => a.ent_key == k && a.attr == x)).head?).map
    (fun a => (a.value, a.type_))

theorem lookup_head_filter {β : Type} (P : List (String × β)) (x : String) :
    (P.filter (fun kv => kv.1 == x)).head? = (P.lookup x).map (fun v => (x, v)) := by
  induction P with
  | nil => rfl
  | cons kv tl ih =>
    obtain ⟨k0, v0⟩ := kv
    by_cases h : k0 = x
    · subst h
      simp [List.lookup]
    · have h1 : (k0 == x) = false := by simpa using h
      have h2 : (x == k0) = false := by simpa using (Ne.symm h)
      simp [List.lookup, h1, h2, ih]

theorem lookup_none_filter {β : Type} (P : List (String × β)) (x : String)
    (h : P.lookup x = Option.none) : P.filter (fun kv => kv.1 == x) = [] := by
  have h2 := lookup_head_filter P x
  rw [h] at h2
  simpa using h2

theorem lookup_none_not_mem {β : Type} (P : List (String × β)) (x : String)
    (h : P.lookup x = Option.none) : x ∉ P.map Prod.fst := by
  intro hmem
  rw [List.mem_map] at hmem
  obtain ⟨kv, hkv, hfst⟩ := hmem
  have : kv ∈ P.filter (fun kv => kv.1 == x) := by
    rw [List.mem_filter]
    exact ⟨hkv, by simp [hfst]⟩
  rw [lookup_none_filter P x h] at this
  simp at this

theorem update_ent_attrs_result (db : DB) (k : String) (P : List (String × PyVal))
    (D : Option (List String)) (t : Nat) (hne : (P.map Prod.fst ++ D.getD []) ≠ []) :
    update_ent_attrs db k (some P) D t = Except.ok
      ⟨db.ents, (db.attrs.filter (fun a =>
          !(a.ent_key == k && (P.map Prod.fst ++ D.getD []).contains a.attr)))
        ++ (P.filter (fun kv => !(D.getD []).contains kv.1)).map
            (fun kv => serializeAttrRow k kv t)⟩ := by
  unfold update_ent_attrs delete_attrs create_attrs
  simp only []
  have hie : (List.map Prod.fst P ++ D.getD []).isEmpty = false := by
    rcases hl : List.map Prod.fst P ++ D.getD [] with _ | ⟨a, l2⟩
    · exact absurd hl hne
    · rfl
  rw [hie]
  simp only [Bool.false_eq_true, if_false]
  split
  · rfl
  · next hins =>
    have : (P.filter (fun kv => !(D.getD []).contains kv.1)) = [] := by
      rcases hP : P.filter (fun kv => !(D.getD []).contains kv.1) with _ | ⟨a, l⟩
      · exact hP
      · exfalso
        apply hins
        rw [hP]
        simp
    rw [this]
    rw [List.map_nil, List.append_nil]

theorem lookup_some_mem {β : Type} (P : List (String × β)) (x : String) (v : β)
    (h : P.lookup x = some v) : x ∈ P.map Prod.fst := by
  induction P with
  | nil => simp [List.lookup] at h
  | cons kv tl ih =>
    obtain ⟨k0, v0⟩ := kv
    by_cases hx : x = k0
    · subst hx
      simp
    · simp only [List.lookup, show (x == k0) = false from by simpa using hx] at h
      simp only [List.map_cons, List.mem_cons]
      exact Or.inr (ih h)

theorem update_ent_attrs_path (db : DB) (k : String) (P : List (String × PyVal))
    (D : List String) (t : Nat) (hT : (truthyList (some P) || truthyList (some D)) = true)
    (hne : (P.map Prod.fst ++ D) ≠ []) :
    update_ent db k Option.none (some P) (some D) Option.none t
      = (⟨db.ents.map (fun e2 => if e2.key == k && ([] : List EntWhere).all (evalEntWhere e2)
            then applyEntPatches e2 Option.none t else e2),
          (db.attrs.filter (fun a => !(a.ent_key == k && (P.map Prod.fst ++ D).contains a.attr)))
            ++ (P.filter (fun kv => !D.contains kv.1)).map (fun kv => serializeAttrRow k kv t)⟩,
         Option.none) := by
  unfold update_ent
  rw [if_neg (by simp [truthyNat])]
  simp only []
  rw [if_pos hT]
  rw [update_ent_attrs_result db k P (some D) t hne]
  simp only [Option.getD]
  unfold patch_ent
  rfl

theorem contains_true_iff (l : List String) (a : String) : l.contains a = true ↔ a ∈ l :=
  List.elem_iff

/-- C3: update_ent with attribute patches P and deletions D deletes every
attribute named in keys(P) ∪ D, re-inserts exactly the entries of P whose
names are not in D (deletions take precedence), leaves all other
attributes of the entity untouched, leaves other entities' attributes
untouched, and succeeds.  attrLookup reads the first stored (value, type)
pair, so the conclusion states exactly the final attribute set. -/
theorem C3_attr_replace (db : DB) (k : String) (P : List (String × PyVal))
    (D : List String) (t : Nat) :
    (update_ent db k Option.none (some P) (some D) Option.none t).2 = Option.none
    ∧ (∀ x, attrLookup (update_ent db k Option.none (some P) (some D) Option.none t).1 k x
        = if D.contains x then Option.none
          else match P.lookup x with
            | some v => some ((serialize_value v).2, (serialize_value v).1)
            | Option.none => attrLookup db k x)
    ∧ (∀ k2, k2 ≠ k →
        (update_ent db k Option.none (some P) (some D) Option.none t).1.attrs.filter
          (fun a => a.ent_key == k2)
        = db.attrs.filter (fun a => a.ent_key == k2)) := by
  by_cases hT : (truthyList (some P) || truthyList (some D)) = true
  · have hne : (P.map Prod.fst ++ D) ≠ [] := by
      simp only [truthyList, Bool.or_eq_true] at hT
      intro hnil
      rw [List.append_eq_nil] at hnil
      rcases hT with hT | hT
      · rw [List.map_eq_nil_iff.mp hnil.1] at hT
        simp at hT
      · rw [hnil.2] at hT
        simp at hT
    rw [update_ent_attrs_path db k P D t hT hne]
    refine ⟨rfl, ?_, ?_⟩
    · intro x
      unfold attrLookup
      simp only [List.filter_append]
      by_cases hxD : D.contains x = true
      · rw [if_pos hxD]
        have h1 : (db.attrs.filter (fun a =>
            !(a.ent_key == k && (P.map Prod.fst ++ D).contains a.attr))).filter
              (fun a => a.ent_key == k && a.attr == x) = [] := by
          rw [List.filter_eq_nil_iff]
          intro a ha hq
          rw [List.mem_filter] at ha
          simp only [Bool.and_eq_true, beq_iff_eq] at hq
          have hcont : (P.map Prod.fst ++ D).contains a.attr = true := by
            rw [hq.2, contains_true_iff]
            exact List.mem_append_right _ ((contains_true_iff D x).mp hxD)
          have hb : (!(a.ent_key == k && (P.map Prod.fst ++ D).contains a.attr)) = false := by
            rw [hcont, Bool.and_true, show (a.ent_key == k) = true from beq_iff_eq.mpr hq.1]
            rfl
          rw [hb] at ha
          exact absurd ha.2 (by decide)
        have h2 : ((P.filter (fun kv => !D.contains kv.1)).map
            (fun kv => serializeAttrRow k kv t)).filter
              (fun a => a.ent_key == k && a.attr == x) = [] := by
          rw [List.filter_eq_nil_iff]
          intro a ha hq
          rw [List.mem_map] at ha
          obtain ⟨kv, hkv, hser⟩ := ha
          rw [List.mem_filter] at hkv
          simp only [Bool.and_eq_true, beq_iff_eq] at hq
          have hattr : a.attr = kv.1 := by rw [← hser]; rfl
          rw [hattr] at hq
          rw [hq.2] at hkv
          have hkv2 := hkv.2
          rw [hxD] at hkv2
          exact absurd hkv2 (by decide)
        rw [h1, h2]
        rfl
      · rw [if_neg hxD]
        cases hlk : P.lookup x with
        | some v =>
          have h1 : (db.attrs.filter (fun a =>
              !(a.ent_key == k && (P.map Prod.fst ++ D).contains a.attr))).filter
                (fun a => a.ent_key == k && a.attr == x) = [] := by
            rw [List.filter_eq_nil_iff]
            intro a ha hq
            rw [List.mem_filter] at ha
            simp only [Bool.and_eq_true, beq_iff_eq] at hq
            have hcont : (P.map Prod.fst ++ D).contains a.attr = true := by
              rw [hq.2, contains_true_iff]
              exact List.mem_append_left _ (lookup_some_mem P x v hlk)
            have hb : (!(a.ent_key == k && (P.map Prod.fst ++ D).contains a.attr)) = false := by
              rw [hcont, Bool.and_true, show (a.ent_key == k) = true from beq_iff_eq.mpr hq.1]
              rfl
            rw [hb] at ha
            exact absurd ha.2 (by decide)
          rw [h1]
          have h2 : ((P.filter (fun kv => !D.contains kv.1)).map
              (fun kv => serializeAttrRow k kv t)).filter
                (fun a => a.ent_key == k && a.attr == x)
              = (P.filter (fun kv => kv.1 == x)).map (fun kv => serializeAttrRow k kv t) := by
            rw [List.filter_map]
            congr 1
            rw [List.filter_filter]
            apply List.filter_congr
            intro kv hkvP
            have hcomp : ((fun a => a.ent_key == k && a.attr == x) ∘
                (fun kv => serializeAttrRow k kv t)) kv = (kv.1 == x) := by
              simp [Function.comp, serializeAttrRow]
            rw [hcomp]
            by_cases hkx : (kv.1 == x) = true
            · have hx2 : kv.1 = x := beq_iff_eq.mp hkx
              have hxDf : D.contains x = false := by
                cases h : D.contains x with
                | false => rfl
                | true => exact absurd h hxD
              rw [hkx, hx2, hxDf]
              rfl
            · have hkxf : (kv.1 == x) = false := by
                cases h : (kv.1 == x) with
                | false => rfl
                | true => exact absurd h hkx
              rw [hkxf]
              rfl
          rw [h2, List.nil_append, List.head?_map, lookup_head_filter, hlk]
          rfl
        | none =>
          have h2 : ((P.filter (fun kv => !D.contains kv.1)).map
              (fun kv => serializeAttrRow k kv t)).filter
                (fun a => a.ent_key == k && a.attr == x) = [] := by
            rw [List.filter_eq_nil_iff]
            intro a ha hq
            rw [List.mem_map] at ha
            obtain ⟨kv, hkv, hser⟩ := ha
            rw [List.mem_filter] at hkv
            simp only [Bool.and_eq_true, beq_iff_eq] at hq
            have hattr : a.attr = kv.1 := by rw [← hser]; rfl
            have hmem2 : kv ∈ P.filter (fun kv => kv.1 == x) := by
              rw [List.mem_filter]
              exact ⟨hkv.1, by simp [← hattr, hq.2]⟩
            rw [lookup_none_filter P x hlk] at hmem2
            simp at hmem2
          have h1 : (db.attrs.filter (fun a =>
              !(a.ent_key == k && (P.map Prod.fst ++ D).contains a.attr))).filter
                (fun a => a.ent_key == k && a.attr == x)
              = db.attrs.filter (fun a => a.ent_key == k && a.attr == x) := by
            rw [List.filter_filter]
            apply List.filter_congr
            intro a _
            by_cases hq : (a.ent_key == k && a.attr == x) = true
            · have hq2 := hq
              simp only [Bool.and_eq_true, beq_iff_eq] at hq2
              have hnc : (P.map Prod.fst ++ D).contains a.attr = false := by
                rw [hq2.2]
                rw [show ∀ b : Bool, (b = false) = (¬(b = true)) from fun b => by simp,
                  contains_true_iff]
                intro hmem
                rcases List.mem_append.mp hmem with hm | hm
                · exact lookup_none_not_mem P x hlk hm
                · exact absurd ((contains_true_iff D x).mpr hm) (by simpa using hxD)
              have hb : (!(a.ent_key == k && (P.map Prod.fst ++ D).contains a.attr)) = true := by
                rw [hnc, Bool.and_false]
                rfl
              rw [hq, hb]
              rfl
            · have hqf : (a.ent_key == k && a.attr == x) = false := by
                cases h : (a.ent_key == k && a.attr == x) with
                | false => rfl
                | true => exact absurd h hq
              rw [hqf]
              rfl
          rw [h1, h2, List.append_nil]
    · intro k2 hk2
      rw [List.filter_append]
      have h2 : ((P.filter (fun kv => !D.contains kv.1)).map
          (fun kv => serializeAttrRow k kv t)).filter (fun a => a.ent_key == k2) = [] := by
        rw [List.filter_eq_nil_iff]
        intro a ha hq
        rw [List.mem_map] at ha
        obtain ⟨kv, _, hser⟩ := ha
        have hak : a.ent_key = k := by rw [← hser]; rfl
        rw [hak] at hq
        exact hk2 ((beq_iff_eq.mp hq).symm)
      have h1 : (db.attrs.filter (fun a =>
          !(a.ent_key == k && (P.map Prod.fst ++ D).contains a.attr))).filter
            (fun a => a.ent_key == k2)
          = db.attrs.filter (fun a => a.ent_key == k2) := by
        rw [List.filter_filter]
        apply List.filter_congr
        intro a _
        by_cases hq : (a.ent_key == k2) = true
        · have hne2 : (a.ent_key == k) = false := by
            rw [beq_iff_eq] at hq
            rw [hq]
            simpa using hk2
          rw [hq, hne2, Bool.false_and, Bool.not_false, Bool.and_true]
        · have hqf : (a.ent_key == k2) = false := by
            cases h : (a.ent_key == k2) with
            | false => rfl
            | true => exact absurd h hq
          rw [hqf]
          rfl
      rw [h1, h2, List.append_nil]
  · have hPD : P = [] ∧ D = [] := by
      simp only [Bool.or_eq_true, truthyList] at hT
      push_neg at hT
      constructor
      · rcases P with _ | ⟨a, l⟩
        · rfl
        · exfalso; exact hT.1 (by simp)
      · rcases D with _ | ⟨a, l⟩
        · rfl
        · exfalso; exact hT.2 (by simp)
    obtain ⟨hP, hD⟩ := hPD
    subst hP
    subst hD
    refine ⟨rfl, ?_, ?_⟩
    · intro x
      rfl
    · intro k2 _
      rfl

/-- Witness for C3 at the claim's example: attrs a:1, b:2, c:3; patches
a:9; deletions [b]; the deleted b is gone and another entity's attribute
rows are untouched. -/
theorem C3_attr_replace_witness :
    attrLookup (update_ent ⟨[⟨"e", 50, 50⟩], [⟨"e", "a", "1", "int", 50⟩,
        ⟨"e", "b", "2", "int", 50⟩, ⟨"e", "c", "3", "int", 50⟩]⟩ "e" Option.none
        (some [("a", PyVal.int 9)]) (some ["b"]) Option.none 60).1 "e" "b" = Option.none
    ∧ (update_ent ⟨[⟨"e", 50, 50⟩], [⟨"e", "a", "1", "int", 50⟩,
        ⟨"e", "b", "2", "int", 50⟩, ⟨"e", "c", "3", "int", 50⟩]⟩ "e" Option.none
        (some [("a", PyVal.int 9)]) (some ["b"]) Option.none 60).1.attrs.filter
        (fun a => a.ent_key == "other")
      = (⟨[⟨"e", 50, 50⟩], [⟨"e", "a", "1", "int", 50⟩, ⟨"e", "b", "2", "int", 50⟩,
        ⟨"e", "c", "3", "int", 50⟩]⟩ : DB).attrs.filter (fun a => a.ent_key == "other") := by
  have h := C3_attr_replace ⟨[⟨"e", 50, 50⟩], [⟨"e", "a", "1", "int", 50⟩,
      ⟨"e", "b", "2", "int", 50⟩, ⟨"e", "c", "3", "int", 50⟩]⟩ "e"
      [("a", PyVal.int 9)] ["b"] 60
  refine ⟨?_, h.2.2 "other" (by decide)⟩
  have h2 := h.2.1 "b"
  simpa using h2

/-! ## Claim C5 -/

/-- Modelled from the spec's words, for comparison with the code: strip
exactly the two-character negation marker "! " when present — and only
that prefix, exactly once. -/
def stripNegExactSpec (op : String) : Bool × String :=
  if op.toList.take 2 = ['!', ' '] then (true, String.mk (op.toList.drop 2))
  else (false, op)

/-- C5 counterexample: the operator "!EXISTS" carries no exact "! "
marker, so under the claim its full text is the base operator and it
matches neither the binary set nor EXISTS; yet get_filter_type (which
uses lstrip('! ')) classifies it as an existence filter, and the
compiled predicate is NOT negated (parse_op finds no marker). -/
theorem C5_counterexample :
    get_filter_type "!EXISTS" = Except.ok FilterType.existence
    ∧ (stripNegExactSpec "!EXISTS").2 = "!EXISTS"
    ∧ "!EXISTS" ∉ BINARY_OPS
    ∧ "!EXISTS" ≠ EXISTENCE_OP
    ∧ alterPerAttrFilter ⟨[], []⟩ ⟨"x", "!EXISTS", ""⟩
        = Except.ok ⟨[], [StWhere.attrExists "x" false]⟩ := by
  refine ⟨rfl, by decide, by decide, by decide, rfl⟩

theorem takeWhile_no_newline (l : List Char) (h : ∀ c ∈ l, c ≠ '\n') :
    l.takeWhile (fun c => c != '\n') = l := by
  induction l with
  | nil => rfl
  | cons c cs ih =>
    have hc : (c != '\n') = true := by simpa using h c (List.mem_cons_self c cs)
    simp only [List.takeWhile_cons, hc, if_true]
    rw [ih (fun c2 hc2 => h c2 (List.mem_cons_of_mem _ hc2))]

/-- C5 (amended): parse_op — used to build the (possibly negated)
comparison — does strip exactly one "! " prefix and negates iff it is
present (stated for operator strings without a newline, which the regex
dot would truncate at); but classification (get_filter_type) instead
strips ALL leading exclamation-mark and space characters via lstrip('! ')
before matching the base operator sets. -/
theorem C5_negation_parsing (op : String) :
    ((∀ c ∈ op.toList, c ≠ '\n') → parse_op op = stripNegExactSpec op)
    ∧ (get_filter_type op = Except.ok FilterType.binary ↔ lstripBangSpace op ∈ BINARY_OPS)
    ∧ (get_filter_type op = Except.ok FilterType.existence ↔
        (lstripBangSpace op ∉ BINARY_OPS ∧ lstripBangSpace op = EXISTENCE_OP)) := by
  refine ⟨?_, ?_, ?_⟩
  · intro h
    unfold parse_op stripNegExactSpec
    by_cases hp : op.toList.take 2 = ['!', ' ']
    · rw [if_pos hp, if_pos hp, takeWhile_no_newline _
        (fun c hc => h c (List.mem_of_mem_drop hc))]
    · rw [if_neg hp, if_neg hp, takeWhile_no_newline _ h, string_mk_toList]
  · unfold get_filter_type
    by_cases hb : lstripBangSpace op ∈ BINARY_OPS
    · rw [if_pos hb]
      simp [hb]
    · rw [if_neg hb]
      by_cases he : lstripBangSpace op = EXISTENCE_OP
      · rw [if_pos he]
        simp [hb, he, show (EXISTENCE_OP : String) ∉ BINARY_OPS from by decide]
      · rw [if_neg he]
        simp [hb]
  · unfold get_filter_type
    by_cases hb : lstripBangSpace op ∈ BINARY_OPS
    · rw [if_pos hb]
      simp [hb, show FilterType.binary ≠ FilterType.existence from by decide]
    · rw [if_neg hb]
      by_cases he : lstripBangSpace op = EXISTENCE_OP
      · rw [if_pos he]
        simp [hb, he, show (EXISTENCE_OP : String) ∉ BINARY_OPS from by decide]
      · rw [if_neg he]
        simp [hb, he]

/-- Witness for C5's amended theorem at the operators "! =" and "=". -/
theorem C5_negation_parsing_witness :
    parse_op "! =" = stripNegExactSpec "! ="
    ∧ (get_filter_type "=" = Except.ok FilterType.binary ↔ lstripBangSpace "=" ∈ BINARY_OPS) :=
  ⟨(C5_negation_parsing "! =").1 (by decide), (C5_negation_parsing "=").2.1⟩

/-! ## Claim C6 -/

/-- C6 counterexample: an entity filter with the unknown operator "BOGUS"
(which survives every stripping untouched and matches neither the binary
set nor EXISTS) compiles successfully — no "unknown filter type" error is
raised, and the bogus operator is passed through into the statement. -/
theorem C6_counterexample :
    lstripBangSpace "BOGUS" ∉ BINARY_OPS
    ∧ lstripBangSpace "BOGUS" ≠ EXISTENCE_OP
    ∧ get_ents_query_statement ⟨Option.none, [], [⟨"key", "BOGUS", SqlArg.s "z"⟩]⟩
        = Except.ok ⟨[], [StWhere.entCmp EntCol.key false "BOGUS" (SqlArg.s "z")]⟩ := by
  refine ⟨by decide, by decide, rfl⟩

theorem attr_fold_error (l : List AttrFilter) :
    ∀ st : Statement,
    (∃ f ∈ l, lstripBangSpace f.op ∉ BINARY_OPS ∧ lstripBangSpace f.op ≠ EXISTENCE_OP) →
    l.foldlM alterPerAttrFilter st = Except.error CompileErr.unknownFilterType := by
  induction l with
  | nil =>
    intro st h
    obtain ⟨f, hf, _⟩ := h
    simp at hf
  | cons f0 l ih =>
    intro st h
    rw [List.foldlM_cons]
    by_cases hbad : lstripBangSpace f0.op ∉ BINARY_OPS ∧ lstripBangSpace f0.op ≠ EXISTENCE_OP
    · have hz : alterPerAttrFilter st f0 = Except.error CompileErr.unknownFilterType := by
        unfold alterPerAttrFilter get_filter_type
        rw [if_neg hbad.1, if_neg hbad.2]
        rfl
      rw [hz]
      rfl
    · obtain ⟨f, hfmem, hfbad⟩ := h
      have hftail : f ∈ l := by
        rcases List.mem_cons.mp hfmem with h0 | h0
        · exfalso
          apply hbad
          rw [← h0]
          exact hfbad
        · exact h0
      cases hres : alterPerAttrFilter st f0 with
      | error e =>
        exfalso
        unfold alterPerAttrFilter get_filter_type at hres
        by_cases h1 : lstripBangSpace f0.op ∈ BINARY_OPS
        · rw [if_pos h1] at hres
          exact Except.noConfusion hres
        · by_cases h2 : lstripBangSpace f0.op = EXISTENCE_OP
          · rw [if_neg h1, if_pos h2] at hres
            exact Except.noConfusion hres
          · exact hbad ⟨h1, h2⟩
      | ok st2 =>
        show l.foldlM alterPerAttrFilter st2 = Except.error CompileErr.unknownFilterType
        exact ih st2 ⟨f, hftail, hfbad⟩

/-- C6 (amended): an ATTRIBUTE filter whose operator, after the code's
lstrip('! ') stripping, is neither a binary operator nor EXISTS makes
query compilation raise the "unknown filter type" error before any
statement reaches the store.  Entity filters, by contrast, are never
classified (see the counterexample): an unknown operator there compiles
into the statement unchecked. -/
theorem C6_unknown_attr_filter (q : Query)
    (h : ∃ f ∈ q.attr_filters,
      lstripBangSpace f.op ∉ BINARY_OPS ∧ lstripBangSpace f.op ≠ EXISTENCE_OP) :
    get_ents_query_statement q = Except.error CompileErr.unknownFilterType := by
  unfold get_ents_query_statement get_ents_query_components
  simp only []
  rw [attr_fold_error q.attr_filters _ h]
  rfl

/-- Witness for C6's amended theorem at a concrete query. -/
theorem C6_unknown_attr_filter_witness :
    get_ents_query_statement ⟨Option.none, [⟨"a", "BOGUS", "z"⟩], []⟩
      = Except.error CompileErr.unknownFilterType :=
  C6_unknown_attr_filter ⟨Option.none, [⟨"a", "BOGUS", "z"⟩], []⟩
    ⟨⟨"a", "BOGUS", "z"⟩, by simp, by decide, by decide⟩

/-! ## Claim C7 -/

theorem validate_error_is_stale (db : DB) (k : String) (m t : Nat) (e : Err)
    (h : validate_and_update_ent_modified db k m t = Except.error e) :
    e = Err.staleEntError := by
  unfold validate_and_update_ent_modified at h
  simp only [] at h
  split at h
  · injection h with h2
    exact h2.symm
  · exact Except.noConfusion h

theorem update_ent_attrs_error_is_attr (db : DB) (k : String)
    (ap : Option (List (String × PyVal))) (ad : Option (List String)) (t : Nat) (e : Err)
    (h : update_ent_attrs db k ap ad t = Except.error e) : e = Err.attributeError := by
  unfold update_ent_attrs at h
  cases ap with
  | none =>
    injection h with h2
    exact h2.symm
  | some P => exact Except.noConfusion h

theorem update_ent_no_integrity (db : DB) (k : String) (ep : Option EntPatches)
    (ap : Option (List (String × PyVal))) (ad : Option (List String)) (em : Option Nat)
    (t : Nat) : (update_ent db k ep ap ad em t).2 ≠ some Err.integrityError := by
  unfold update_ent
  split
  · next e heq =>
    simp only []
    intro hc
    have he : e = Err.integrityError := by
      injection hc
    subst he
    split at heq
    · exact absurd (validate_error_is_stale _ _ _ _ _ heq) (by decide)
    · exact Except.noConfusion heq
  · next db1 heq =>
    split
    · next e heq2 =>
      simp only []
      intro hc
      have he : e = Err.integrityError := by
        injection hc
      subst he
      split at heq2
      · exact absurd (update_ent_attrs_error_is_attr _ _ _ _ _ _ heq2) (by decide)
      · exact Except.noConfusion heq2
    · next db2 heq2 =>
      simp

/-- C7: upsert_ent attempts create_ent and falls back to update_ent
precisely on the uniqueness violation (IntegrityError) raised when the
entity key already exists; the fallback applies the patches/deletions as
an update and never surfaces a uniqueness error to the caller.  Any other
error raised during the create attempt propagates unchanged (with the
surrounding transaction rolled back), with no update fallback. -/
theorem C7_upsert_fallback (db : DB) (k : String) (ep : Option EntPatches)
    (ap : Option (List (String × PyVal))) (ad : Option (List String)) (t : Nat) :
    ((∃ e ∈ db.ents, e.key = k) →
      (upsert_ent db k ep ap ad t
        = match update_ent db k ep ap ad Option.none t with
          | (db2, Option.none) => (db2, Except.ok Option.none)
          | (_, some e2) => (db, Except.error e2))
      ∧ (upsert_ent db k ep ap ad t).2 ≠ Except.error Err.integrityError)
    ∧ (∀ er, (create_ent db k ep ap t).2 = Except.error er → er ≠ Err.integrityError →
        upsert_ent db k ep ap ad t = (db, Except.error er)) := by
  constructor
  · intro hex
    obtain ⟨e0, he0, hk0⟩ := hex
    have hany : db.ents.any (fun e => e.key == k) = true :=
      List.any_eq_true.mpr ⟨e0, he0, beq_iff_eq.mpr hk0⟩
    have hint : create_ent db k ep ap t = (db, Except.error Err.integrityError) := by
      unfold create_ent
      rw [if_pos hany]
    have hform : upsert_ent db k ep ap ad t
        = match update_ent db k ep ap ad Option.none t with
          | (db2, Option.none) => (db2, Except.ok Option.none)
          | (_, some e2) => (db, Except.error e2) := by
      unfold upsert_ent
      rw [hint]
    refine ⟨hform, ?_⟩
    rw [hform]
    cases hu : update_ent db k ep ap ad Option.none t with
    | mk db2 r =>
      cases r with
      | none => simp
      | some e2 =>
        simp only []
        intro hc
        have he2 : e2 = Err.integrityError := by
          simpa using hc
        subst he2
        exact update_ent_no_integrity db k ep ap ad Option.none t (by rw [hu])
  · intro er her hne
    unfold upsert_ent
    cases hc : create_ent db k ep ap t with
    | mk db2 r =>
      rw [hc] at her
      simp only [] at her
      rw [her]
      cases er with
      | integrityError => exact absurd rfl hne
      | staleEntError => rfl
      | keyError => rfl
      | attributeError => rfl
      | queryCompileError ce => rfl

/-- Witness for C7 at a concrete store whose key already exists. -/
theorem C7_upsert_fallback_witness :
    upsert_ent ⟨[⟨"u", 3, 3⟩], []⟩ "u" Option.none (some [("a", PyVal.int 1)]) Option.none 9
      = (match update_ent ⟨[⟨"u", 3, 3⟩], []⟩ "u" Option.none (some [("a", PyVal.int 1)])
            Option.none Option.none 9 with
         | (db2, Option.none) => (db2, Except.ok Option.none)
         | (_, some e2) => (⟨[⟨"u", 3, 3⟩], []⟩, Except.error e2)) :=
  ((C7_upsert_fallback ⟨[⟨"u", 3, 3⟩], []⟩ "u" Option.none (some [("a", PyVal.int 1)])
      Option.none 9).1 ⟨⟨"u", 3, 3⟩, by simp, rfl⟩).1

/-! ## Claim C8 -/

theorem keys_const_aux (rows : List Row) (K : String) :
    ∀ acc : List (String × EntDict), (∀ r ∈ rows, r.ent_key = K) → acc.map Prod.fst = [K] →
    ((rows.foldl (fun acc row =>
      let acc2 := match lookupStr acc row.ent_key with
        | some _ => acc
        | Option.none => acc ++ [(row.ent_key, ⟨row.ent_key, row.ent_modified, []⟩)]
      dictModify acc2 row.ent_key
        (fun ed => { ed with attrs := dictSet ed.attrs row.attr (deserialize_value row.value row.type_) }))
      acc).map Prod.fst) = [K] := by
  induction rows with
  | nil => intro acc _ hacc; simpa using hacc
  | cons row tl ih =>
    intro acc hall hacc
    rw [List.foldl_cons]
    have hshape : ∃ ed, acc = [(K, ed)] := by
      cases acc with
      | nil => simp at hacc
      | cons hd tl2 =>
        obtain ⟨k0, v0⟩ := hd
        simp only [List.map_cons, List.cons.injEq] at hacc
        obtain ⟨hk0, htl⟩ := hacc
        rw [List.map_eq_nil_iff] at htl
        exact ⟨v0, by rw [hk0, htl]⟩
    obtain ⟨ed, hed⟩ := hshape
    have hrk : row.ent_key = K := hall row (List.mem_cons_self _ _)
    have hlook : lookupStr acc row.ent_key = some ed := by
      rw [hed, hrk]
      simp [lookupStr]
    refine ih _ (fun r hr => hall r (List.mem_cons_of_mem _ hr)) ?_
    simp only [hlook]
    rw [dictModify_keys, hed]
    rfl

theorem keys_const (rows : List Row) (K : String) (hne : rows ≠ [])
    (hall : ∀ r ∈ rows, r.ent_key = K) :
    (ent_attr_dicts_to_ent_dicts rows).map Prod.fst = [K] := by
  cases rows with
  | nil => exact absurd rfl hne
  | cons r0 tl =>
    unfold ent_attr_dicts_to_ent_dicts
    rw [List.foldl_cons]
    have hr0 : r0.ent_key = K := hall r0 (List.mem_cons_self _ _)
    refine keys_const_aux tl K _ (fun r hr => hall r (List.mem_cons_of_mem _ hr)) ?_
    simp only [lookupStr, List.nil_append]
    unfold dictModify
    rw [if_pos (by simp)]
    simp [hr0]

theorem runStatement_exists_two (db : DB) (e1 e2 : EntRow) (x : String) (neg : Bool)
    (c1 c2 : Bool) (hents : db.ents = [e1, e2])
    (hb1 : db.attrs.any (fun a2 => a2.attr == x && a2.ent_key == e1.key) = c1)
    (hb2 : db.attrs.any (fun a2 => a2.attr == x && a2.ent_key == e2.key) = c2) :
    runStatement db ⟨[], [StWhere.attrExists x neg]⟩
      = (if (if neg then !c1 else c1) then
          (db.attrs.filter (fun a => a.ent_key == e1.key)).map
            (fun a => Row.mk a.attr a.value a.type_ e1.key e1.modified) else [])
      ++ (if (if neg then !c2 else c2) then
          (db.attrs.filter (fun a => a.ent_key == e2.key)).map
            (fun a => Row.mk a.attr a.value a.type_ e2.key e2.modified) else []) := by
  unfold runStatement
  simp only [List.foldl_nil]
  unfold baseRows
  rw [hents]
  rw [List.flatMap_cons, List.flatMap_cons, List.flatMap_nil, List.append_nil]
  rw [List.filter_append, List.map_append]
  have hp1 : ∀ a : AttrRow,
      ([StWhere.attrExists x neg].all (fun w => evalStWhere db e1 a w))
        = (if neg then !c1 else c1) := by
    intro a
    simp only [List.all_cons, List.all_nil, Bool.and_true, evalStWhere]
    rw [hb1]
  have hp2 : ∀ a : AttrRow,
      ([StWhere.attrExists x neg].all (fun w => evalStWhere db e2 a w))
        = (if neg then !c2 else c2) := by
    intro a
    simp only [List.all_cons, List.all_nil, Bool.and_true, evalStWhere]
    rw [hb2]
  congr 1
  · cases hd : (if neg then !c1 else c1) with
    | false =>
      rw [if_neg Bool.false_ne_true]
      rw [List.filter_eq_nil_iff.mpr ?_, List.map_nil]
      intro r hr
      rw [List.mem_map] at hr
      obtain ⟨a, _, heq⟩ := hr
      rw [← heq, hp1 a, hd]
      exact Bool.false_ne_true
    | true =>
      rw [if_pos rfl]
      rw [List.filter_eq_self.mpr ?_, List.map_map]
      · rfl
      intro r hr
      rw [List.mem_map] at hr
      obtain ⟨a, _, heq⟩ := hr
      rw [← heq, hp1 a, hd]
  · cases hd : (if neg then !c2 else c2) with
    | false =>
      rw [if_neg Bool.false_ne_true]
      rw [List.filter_eq_nil_iff.mpr ?_, List.map_nil]
      intro r hr
      rw [List.mem_map] at hr
      obtain ⟨a, _, heq⟩ := hr
      rw [← heq, hp2 a, hd]
      exact Bool.false_ne_true
    | true =>
      rw [if_pos rfl]
      rw [List.filter_eq_self.mpr ?_, List.map_map]
      · rfl
      intro r hr
      rw [List.mem_map] at hr
      obtain ⟨a, _, heq⟩ := hr
      rw [← heq, hp2 a, hd]

/-- C8 counterexample: a store with entities e1 (one attribute "x") and e2
(no attribute rows at all).  The claim says the negated existence filter
{attr: "x", op: "! EXISTS"} returns exactly {e2}; in the code it returns
the empty result, because the compiled statement still inner-joins ents to
attrs, and e2 contributes no join row over which the negated predicate
could hold. -/
theorem C8_counterexample :
    query_ents ⟨[⟨"e1", 10, 10⟩, ⟨"e2", 11, 11⟩], [⟨"e1", "x", "1", "int", 10⟩]⟩
      ⟨Option.none, [⟨"x", "! EXISTS", ""⟩], []⟩ = Except.ok []
    ∧ (∀ a ∈ (⟨[⟨"e1", 10, 10⟩, ⟨"e2", 11, 11⟩],
          [⟨"e1", "x", "1", "int", 10⟩]⟩ : DB).attrs,
        ¬(a.ent_key = "e2" ∧ a.attr = "x")) :=
  ⟨rfl, by decide⟩

/-- C8 (amended): for a store holding exactly the entities e1 and e2, where
e1 has an attribute row named "x", e2 has no attribute row named "x" but
has at least one attribute row (so the inner join does not drop it), the
existence filter {attr: "x", op: "EXISTS"} returns exactly e1 and the
negated filter {attr: "x", op: "! EXISTS"} returns exactly e2: the filter
compiles to a correlated (possibly negated) existence predicate on the
outer entity's key and introduces no extra join rows. -/
theorem C8_existence_duality (db : DB) (e1 e2 : EntRow) (ax ay : AttrRow)
    (hents : db.ents = [e1, e2])
    (hax : ax ∈ db.attrs) (haxk : ax.ent_key = e1.key) (haxn : ax.attr = "x")
    (hno2 : ∀ a ∈ db.attrs, a.ent_key = e2.key → a.attr ≠ "x")
    (hay : ay ∈ db.attrs) (hayk : ay.ent_key = e2.key) :
    (∃ res, query_ents db ⟨Option.none, [⟨"x", "EXISTS", ""⟩], []⟩ = Except.ok res
      ∧ res.map Prod.fst = [e1.key])
    ∧ (∃ res, query_ents db ⟨Option.none, [⟨"x", "! EXISTS", ""⟩], []⟩ = Except.ok res
      ∧ res.map Prod.fst = [e2.key]) := by
  have hb1 : db.attrs.any (fun a2 => a2.attr == "x" && a2.ent_key == e1.key) = true :=
    List.any_eq_true.mpr ⟨ax, hax, by rw [haxn, haxk]; simp⟩
  have hb2 : db.attrs.any (fun a2 => a2.attr == "x" && a2.ent_key == e2.key) = false := by
    rw [List.any_eq_false]
    intro a ha hcontra
    rw [Bool.and_eq_true, beq_iff_eq, beq_iff_eq] at hcontra
    exact hno2 a ha hcontra.2 hcontra.1
  have hrunE := runStatement_exists_two db e1 e2 "x" false true false hents hb1 hb2
  have hrunN := runStatement_exists_two db e1 e2 "x" true true false hents hb1 hb2
  have hrunE2 : runStatement db ⟨[], [StWhere.attrExists "x" false]⟩
      = (db.attrs.filter (fun a => a.ent_key == e1.key)).map
          (fun a => Row.mk a.attr a.value a.type_ e1.key e1.modified) := by
    rw [hrunE]
    simp
  have hrunN2 : runStatement db ⟨[], [StWhere.attrExists "x" true]⟩
      = (db.attrs.filter (fun a => a.ent_key == e2.key)).map
          (fun a => Row.mk a.attr a.value a.type_ e2.key e2.modified) := by
    rw [hrunN]
    simp
  have hallkeys : ∀ (e : EntRow),
      ∀ r ∈ (db.attrs.filter (fun a => a.ent_key == e.key)).map
        (fun a => Row.mk a.attr a.value a.type_ e.key e.modified), r.ent_key = e.key := by
    intro e r hr
    rw [List.mem_map] at hr
    obtain ⟨a, _, heq⟩ := hr
    rw [← heq]
  constructor
  · refine ⟨ent_attr_dicts_to_ent_dicts ((db.attrs.filter (fun a => a.ent_key == e1.key)).map
      (fun a => Row.mk a.attr a.value a.type_ e1.key e1.modified)), ?_, ?_⟩
    · unfold query_ents
      rw [show get_ents_query_statement ⟨Option.none, [⟨"x", "EXISTS", ""⟩], []⟩
          = Except.ok ⟨[], [StWhere.attrExists "x" false]⟩ from rfl]
      simp only [Except.map]
      rw [hrunE2]
    · refine keys_const _ e1.key ?_ (hallkeys e1)
      exact List.ne_nil_of_mem (List.mem_map_of_mem _
        (List.mem_filter.mpr ⟨hax, by rw [haxk]; simp⟩))
  · refine ⟨ent_attr_dicts_to_ent_dicts ((db.attrs.filter (fun a => a.ent_key == e2.key)).map
      (fun a => Row.mk a.attr a.value a.type_ e2.key e2.modified)), ?_, ?_⟩
    · unfold query_ents
      rw [show get_ents_query_statement ⟨Option.none, [⟨"x", "! EXISTS", ""⟩], []⟩
          = Except.ok ⟨[], [StWhere.attrExists "x" true]⟩ from rfl]
      simp only [Except.map]
      rw [hrunN2]
    · refine keys_const _ e2.key ?_ (hallkeys e2)
      exact List.ne_nil_of_mem (List.mem_map_of_mem _
        (List.mem_filter.mpr ⟨hay, by rw [hayk]; simp⟩))

/-- Witness for C8's amended theorem at a concrete store in which e2 has an
attribute row (named "y"), so the join keeps it. -/
theorem C8_existence_duality_witness :
    (∃ res, query_ents ⟨[⟨"e1", 10, 10⟩, ⟨"e2", 11, 11⟩],
        [⟨"e1", "x", "1", "int", 10⟩, ⟨"e2", "y", "2", "int", 11⟩]⟩
        ⟨Option.none, [⟨"x", "EXISTS", ""⟩], []⟩ = Except.ok res
      ∧ res.map Prod.fst = ["e1"])
    ∧ (∃ res, query_ents ⟨[⟨"e1", 10, 10⟩, ⟨"e2", 11, 11⟩],
        [⟨"e1", "x", "1", "int", 10⟩, ⟨"e2", "y", "2", "int", 11⟩]⟩
        ⟨Option.none, [⟨"x", "! EXISTS", ""⟩], []⟩ = Except.ok res
      ∧ res.map Prod.fst = ["e2"]) :=
  C8_existence_duality
    ⟨[⟨"e1", 10, 10⟩, ⟨"e2", 11, 11⟩],
      [⟨"e1", "x", "1", "int", 10⟩, ⟨"e2", "y", "2", "int", 11⟩]⟩
    ⟨"e1", 10, 10⟩ ⟨"e2", 11, 11⟩ ⟨"e1", "x", "1", "int", 10⟩ ⟨"e2", "y", "2", "int", 11⟩
    rfl (by simp) rfl rfl (by decide) (by simp) rfl

/-! ## Claim C9 -/

/-- The entity row a SELECT by key sees (first ents row with that key). -/
def lookupEnt (db : DB) (k : String) : Option EntRow :=
  db.ents.find? (fun e => e.key == k)

/-- One call through the public mutation API, stamped with the wall-clock
time at which it runs. -/
inductive ApiOp : Type where
| create (k : String) (ep : Option EntPatches) (ap : Option (List (String × PyVal)))
    (t : Nat) : ApiOp
| update (k : String) (ep : Option EntPatches) (ap : Option (List (String × PyVal)))
    (ad : Option (List String)) (em : Option Nat) (t : Nat) : ApiOp
| upsert (k : String) (ep : Option EntPatches) (ap : Option (List (String × PyVal)))
    (ad : Option (List String)) (t : Nat) : ApiOp

/-- The wall-clock time of an API call. -/
def ApiOp.time : ApiOp → Nat
| ApiOp.create _ _ _ t => t
| ApiOp.update _ _ _ _ _ t => t
| ApiOp.upsert _ _ _ _ t => t

/-- The ent_patches argument of an API call. -/
def ApiOp.ep : ApiOp → Option EntPatches
| ApiOp.create _ ep _ _ => ep
| ApiOp.update _ ep _ _ _ _ => ep
| ApiOp.upsert _ ep _ _ _ => ep

/-- The ent_patches dict leaves the timestamp columns alone. -/
def cleanEp : Option EntPatches → Prop
| Option.none => True
| some p => p.created = Option.none ∧ p.modified = Option.none

/-- The store state after one API call (errors roll back, so the state
component of each operation's result is taken). -/
def stepOp (db : DB) : ApiOp → DB
| ApiOp.create k ep ap t => (create_ent db k ep ap t).1
| ApiOp.update k ep ap ad em t => (update_ent db k ep ap ad em t).1
| ApiOp.upsert k ep ap ad t => (upsert_ent db k ep ap ad t).1

/-- Reachability through sequences of API calls whose ent_patches leave the
timestamp columns alone and which run at wall-clock times no earlier than
every stored modified stamp (time runs forward). -/
inductive Reach : DB → DB → Prop where
| refl (db : DB) : Reach db db
| step (db1 db2 : DB) (o : ApiOp) : Reach db1 db2 → cleanEp o.ep →
    (∀ e ∈ db2.ents, e.modified ≤ o.time) → Reach db1 (stepOp db2 o)

/-- Timestamp preservation from one store state to another: every entity
visible in the first remains visible with the same created stamp and a
modified stamp no smaller, and every modified stamp in the second is at
most t. -/
def PresTo (db db2 : DB) (t : Nat) : Prop :=
  (∀ k e, lookupEnt db k = some e →
    ∃ e2, lookupEnt db2 k = some e2 ∧ e2.created = e.created ∧ e.modified ≤ e2.modified)
  ∧ (∀ e2 ∈ db2.ents, e2.modified ≤ t)

theorem presTo_refl (db : DB) (t : Nat) (hb : ∀ e ∈ db.ents, e.modified ≤ t) :
    PresTo db db t :=
  ⟨fun _ e he => ⟨e, he, rfl, Nat.le_refl _⟩, hb⟩

theorem presTo_trans {db1 db2 db3 : DB} {t : Nat} (h12 : PresTo db1 db2 t)
    (h23 : PresTo db2 db3 t) : PresTo db1 db3 t := by
  refine ⟨?_, h23.2⟩
  intro k e he
  obtain ⟨e2, he2, hc2, hm2⟩ := h12.1 k e he
  obtain ⟨e3, he3, hc3, hm3⟩ := h23.1 k e2 he2
  exact ⟨e3, he3, by rw [hc3, hc2], Nat.le_trans hm2 hm3⟩

/-- The per-row effect of patch_ent. -/
def patchRow (k0 : String) (p : Option EntPatches) (wheres : List EntWhere) (t : Nat)
    (e : EntRow) : EntRow :=
  if e.key == k0 && wheres.all (evalEntWhere e) then applyEntPatches e p t else e

theorem patch_ent_ents (db : DB) (k0 : String) (p : Option EntPatches)
    (wheres : List EntWhere) (t : Nat) :
    (patch_ent db k0 p wheres t).1.ents = db.ents.map (patchRow k0 p wheres t) := rfl

theorem patchRow_key (k0 : String) (p : Option EntPatches) (wheres : List EntWhere)
    (t : Nat) (e : EntRow) : (patchRow k0 p wheres t e).key = e.key := by
  unfold patchRow
  split
  · exact applyEntPatches_key e p t
  · rfl

theorem applyEntPatches_clean (e : EntRow) (p : Option EntPatches) (t : Nat)
    (hc : cleanEp p) :
    (applyEntPatches e p t).created = e.created ∧ (applyEntPatches e p t).modified = t := by
  cases p with
  | none =>
    unfold applyEntPatches
    rw [if_neg (by simp [truthyPatches])]
    exact ⟨rfl, rfl⟩
  | some q =>
    obtain ⟨h1, h2⟩ := hc
    unfold applyEntPatches
    by_cases htr : truthyPatches (some q) = true
    · rw [if_pos htr]
      simp [Option.getD, h1, h2]
    · rw [if_neg htr]
      exact ⟨rfl, rfl⟩

theorem patchRow_clean (k0 : String) (p : Option EntPatches) (wheres : List EntWhere)
    (t : Nat) (e : EntRow) (hc : cleanEp p) :
    (patchRow k0 p wheres t e).created = e.created
    ∧ ((patchRow k0 p wheres t e).modified = e.modified
       ∨ (patchRow k0 p wheres t e).modified = t) := by
  unfold patchRow
  split
  · obtain ⟨h1, h2⟩ := applyEntPatches_clean e p t hc
    exact ⟨h1, Or.inr h2⟩
  · exact ⟨rfl, Or.inl rfl⟩

theorem find_key_map (l : List EntRow) (g : EntRow → EntRow)
    (hg : ∀ e, (g e).key = e.key) (k : String) :
    (l.map g).find? (fun e => e.key == k) = (l.find? (fun e => e.key == k)).map g := by
  induction l with
  | nil => rfl
  | cons e tl ih =>
    rw [List.map_cons]
    by_cases h : (e.key == k) = true
    · rw [@List.find?_cons_of_pos _ (fun e2 => e2.key == k) (g e) (tl.map g)
          (by simp only [hg]; exact h),
        @List.find?_cons_of_pos _ (fun e2 => e2.key == k) e tl h]
      rfl
    · rw [@List.find?_cons_of_neg _ (fun e2 => e2.key == k) (g e) (tl.map g)
          (by simp only [hg]; exact h),
        @List.find?_cons_of_neg _ (fun e2 => e2.key == k) e tl h]
      exact ih

theorem patch_ent_pres (db : DB) (k0 : String) (p : Option EntPatches)
    (wheres : List EntWhere) (t : Nat) (hc : cleanEp p)
    (hb : ∀ e ∈ db.ents, e.modified ≤ t) :
    PresTo db (patch_ent db k0 p wheres t).1 t := by
  constructor
  · intro k e he
    unfold lookupEnt at he ⊢
    rw [patch_ent_ents, find_key_map _ _ (patchRow_key k0 p wheres t) k, he]
    refine ⟨patchRow k0 p wheres t e, rfl, ?_, ?_⟩
    · exact (patchRow_clean k0 p wheres t e hc).1
    · rcases (patchRow_clean k0 p wheres t e hc).2 with h | h
      · rw [h]
      · rw [h]
        exact hb e (List.mem_of_find?_eq_some he)
  · intro e2 he2
    rw [patch_ent_ents, List.mem_map] at he2
    obtain ⟨e, he, heq⟩ := he2
    rw [← heq]
    rcases (patchRow_clean k0 p wheres t e hc).2 with h | h
    · rw [h]
      exact hb e he
    · rw [h]

theorem mkEntRow_clean (k0 : String) (ep : Option EntPatches) (t : Nat)
    (hc : cleanEp ep) :
    (mkEntRow k0 ep t).modified = t ∧ (mkEntRow k0 ep t).created = t := by
  cases ep with
  | none => simp [mkEntRow]
  | some q =>
    obtain ⟨h1, h2⟩ := hc
    simp [mkEntRow, h1, h2]

theorem create_ent_ents (db : DB) (k0 : String) (ep : Option EntPatches)
    (ap : Option (List (String × PyVal))) (t : Nat)
    (hany : db.ents.any (fun e => e.key == k0) = false) :
    (create_ent db k0 ep ap t).1.ents = db.ents ++ [mkEntRow k0 ep t] := by
  unfold create_ent
  rw [hany, if_neg Bool.false_ne_true]
  simp only []
  split <;> try split <;> try split
  all_goals rfl

theorem create_ent_pres (db : DB) (k0 : String) (ep : Option EntPatches)
    (ap : Option (List (String × PyVal))) (t : Nat) (hc : cleanEp ep)
    (hb : ∀ e ∈ db.ents, e.modified ≤ t) :
    PresTo db (create_ent db k0 ep ap t).1 t := by
  by_cases hany : db.ents.any (fun e => e.key == k0) = true
  · have h1 : (create_ent db k0 ep ap t).1 = db := by
      unfold create_ent
      rw [if_pos hany]
    rw [h1]
    exact presTo_refl db t hb
  · have hents := create_ent_ents db k0 ep ap t (Bool.eq_false_iff.mpr hany)
    constructor
    · intro k e he
      unfold lookupEnt at he ⊢
      rw [hents, List.find?_append, he]
      exact ⟨e, rfl, rfl, Nat.le_refl _⟩
    · intro e2 he2
      rw [hents, List.mem_append] at he2
      rcases he2 with h | h
      · exact hb e2 h
      · rw [List.mem_singleton] at h
        rw [h, (mkEntRow_clean k0 ep t hc).1]

theorem update_ent_pres (db : DB) (k0 : String) (ep : Option EntPatches)
    (ap : Option (List (String × PyVal))) (ad : Option (List String)) (em : Option Nat)
    (t : Nat) (hc : cleanEp ep) (hb : ∀ e ∈ db.ents, e.modified ≤ t) :
    PresTo db (update_ent db k0 ep ap ad em t).1 t := by
  unfold update_ent
  split
  · next e heq =>
    exact presTo_refl db t hb
  · next db1 heq =>
    have hdb1 : PresTo db db1 t := by
      split at heq
      · unfold validate_and_update_ent_modified at heq
        simp only [] at heq
        split at heq
        · exact Except.noConfusion heq
        · have h2 : (patch_ent db k0 Option.none [EntWhere.modifiedEq (em.getD 0)] t).1
              = db1 := by
            injection heq with h3
          rw [← h2]
          exact patch_ent_pres db k0 Option.none [EntWhere.modifiedEq (em.getD 0)] t
            trivial hb
      · have h2 : db = db1 := by injection heq with h3
        rw [← h2]
        exact presTo_refl db t hb
    split
    · next e heq2 =>
      exact presTo_refl db t hb
    · next db2 heq2 =>
      have hdb2 : PresTo db1 db2 t := by
        split at heq2
        · cases ap with
          | none =>
            unfold update_ent_attrs at heq2
            exact Except.noConfusion heq2
          | some P =>
            have hents2 := update_ent_attrs_ents db1 k0 P ad t db2 heq2
            constructor
            · intro k e he
              refine ⟨e, ?_, rfl, Nat.le_refl _⟩
              unfold lookupEnt at he ⊢
              rw [hents2]
              exact he
            · intro e2 he2
              rw [hents2] at he2
              exact hdb1.2 e2 he2
        · have h2 : db1 = db2 := by injection heq2 with h3
          rw [← h2]
          exact presTo_refl db1 t hdb1.2
      exact presTo_trans (presTo_trans hdb1 hdb2) (patch_ent_pres db2 k0 ep [] t hc hdb2.2)

theorem upsert_ent_pres (db : DB) (k0 : String) (ep : Option EntPatches)
    (ap : Option (List (String × PyVal))) (ad : Option (List String)) (t : Nat)
    (hc : cleanEp ep) (hb : ∀ e ∈ db.ents, e.modified ≤ t) :
    PresTo db (upsert_ent db k0 ep ap ad t).1 t := by
  unfold upsert_ent
  split
  · next db2 ed heq =>
    have h1 := create_ent_pres db k0 ep ap t hc hb
    rw [heq] at h1
    exact h1
  · next heq =>
    split
    · next db2 heq2 =>
      have h1 := update_ent_pres db k0 ep ap ad Option.none t hc hb
      rw [heq2] at h1
      exact h1
    · next e heq2 =>
      exact presTo_refl db t hb
  · next e heq =>
    exact presTo_refl db t hb

theorem stepOp_pres (db : DB) (o : ApiOp) (hc : cleanEp o.ep)
    (hb : ∀ e ∈ db.ents, e.modified ≤ o.time) : PresTo db (stepOp db o) o.time := by
  cases o with
  | create k ep ap t => exact create_ent_pres db k ep ap t hc hb
  | update k ep ap ad em t => exact update_ent_pres db k ep ap ad em t hc hb
  | upsert k ep ap ad t => exact upsert_ent_pres db k ep ap ad t hc hb

theorem reach_pres {db1 db2 : DB} (hr : Reach db1 db2) :
    ∀ k e1, lookupEnt db1 k = some e1 →
      ∃ e2, lookupEnt db2 k = some e2 ∧ e2.created = e1.created
        ∧ e1.modified ≤ e2.modified := by
  induction hr with
  | refl => exact fun k e1 h => ⟨e1, h, rfl, Nat.le_refl _⟩
  | step dbb o hreach hclean hbound ih =>
    intro k e1 h
    obtain ⟨e3, he3, hc3, hm3⟩ := ih k e1 h
    obtain ⟨e2, he2, hc2, hm2⟩ := (stepOp_pres dbb o hclean hbound).1 k e3 he3
    exact ⟨e2, he2, by rw [hc2, hc3], Nat.le_trans hm3 hm2⟩

/-- C9 counterexample: update_ent with ent_patches = {created: 0} on an
entity created at 5 rewrites the created column (patch_ent applies the
given patches to whatever columns they name), and the call succeeds. -/
theorem C9_counterexample :
    (update_ent ⟨[⟨"k", 5, 5⟩], []⟩ "k" (some ⟨some 0, Option.none⟩) Option.none
        Option.none Option.none 10).1.ents = [⟨"k", 0, 10⟩]
    ∧ (update_ent ⟨[⟨"k", 5, 5⟩], []⟩ "k" (some ⟨some 0, Option.none⟩) Option.none
        Option.none Option.none 10).2 = Option.none :=
  ⟨rfl, rfl⟩

/-- C9 (amended): across every sequence of API calls (create_ent,
update_ent, upsert_ent) whose ent_patches leave the created and modified
columns alone and which run at wall-clock times no earlier than every
stored modified stamp, an entity's created timestamp never changes and its
modified timestamp is monotonically non-decreasing. -/
theorem C9_timestamp_invariants (db1 db2 : DB) (k : String) (e1 e2 : EntRow)
    (hr : Reach db1 db2) (h1 : lookupEnt db1 k = some e1)
    (h2 : lookupEnt db2 k = some e2) :
    e2.created = e1.created ∧ e1.modified ≤ e2.modified := by
  obtain ⟨e2b, he2b, hcr, hm⟩ := reach_pres hr k e1 h1
  rw [h2] at he2b
  injection he2b with h3
  rw [h3]
  exact ⟨hcr, hm⟩

/-- Witness for C9's amended theorem: one clean update_ent step at time 10
on an entity with timestamps (created 5, modified 5). -/
theorem C9_timestamp_invariants_witness :
    (EntRow.mk "k" 5 10).created = (EntRow.mk "k" 5 5).created
    ∧ (EntRow.mk "k" 5 5).modified ≤ (EntRow.mk "k" 5 10).modified :=
  C9_timestamp_invariants ⟨[⟨"k", 5, 5⟩], []⟩
    (stepOp ⟨[⟨"k", 5, 5⟩], []⟩
      (ApiOp.update "k" Option.none (some [("a", PyVal.int 1)]) Option.none Option.none 10))
    "k" ⟨"k", 5, 5⟩ ⟨"k", 5, 10⟩
    (Reach.step _ _ _ (Reach.refl _) trivial (by decide))
    rfl rfl
end SqlaEav
